import Mathlib

/-!
Verification of the classification-and-transformation engine of the
`code-context` tool (`src/transformer.rs`), as a shallow embedding.

The embedding models the syntax-tree fragment the engine inspects:
declarations (`Item`), their metadata markers (`Attr`), return types
(`RsType`), and function bodies (`Block`).  Token streams are rendered
the way `proc_macro2`/`quote` renders them (tokens separated by single
spaces, path segments joined by `" :: "`), since the engine's
predicates operate on those rendered strings.

The transformer of the source has a single policy flag (`no_comments`);
its `visit_file_mut`/`visit_item_mut` pass is modelled by
`transformFile`/`transformItem` below, in the `Except String` monad
because the only failure mode of the pass is the
`panic!("Unexpected item type")` in `get_attrs_mut`.
-/

namespace CodeContext

/-- Character-list substring containment, modelling Rust's `str::contains`
with a string pattern. -/
def strContains (hay needle : String) : Bool :=
  (List.range (hay.toList.length + 1)).any
    (fun k => needle.toList.isPrefixOf (hay.toList.drop k))

/-- Character-list prefix test, modelling Rust's `str::starts_with`. -/
def strStarts (hay needle : String) : Bool :=
  needle.toList.isPrefixOf hay.toList

mutual
/-- Generic arguments of a path segment (`syn::PathArguments`). -/
inductive PathArgs where
  | noArgs : PathArgs
  | angle (args : List GenericArg) : PathArgs
  | parenArgs (tokens : String) : PathArgs

inductive GenericArg where
  | tyArg (t : RsType) : GenericArg
  | otherArg (tokens : String) : GenericArg

inductive PathSeg where
  | seg (ident : String) (args : PathArgs) : PathSeg

inductive RsType where
  | path (segs : List PathSeg) : RsType
  | ref (elem : RsType) : RsType
  | verbatimTy (tokens : String) : RsType
end

mutual
/-- Token-stream rendering of paths/types, as `to_token_stream().to_string()`
produces it: tokens separated by single spaces, `::` kept joint. -/
def renderType : RsType → String
  | .path segs => renderSegs segs
  | .ref e => "& " ++ renderType e
  | .verbatimTy s => s

def renderSegs : List PathSeg → String
  | [] => ""
  | [s] => renderSeg s
  | s :: rest => renderSeg s ++ " :: " ++ renderSegs rest

def renderSeg : PathSeg → String
  | .seg id .noArgs => id
  | .seg id (.angle args) => id ++ " < " ++ renderArgs args ++ " >"
  | .seg id (.parenArgs s) => id ++ " " ++ s

def renderArgs : List GenericArg → String
  | [] => ""
  | [a] => renderArg a
  | a :: rest => renderArg a ++ " , " ++ renderArgs rest

def renderArg : GenericArg → String
  | .tyArg t => renderType t
  | .otherArg s => s
end

mutual
/-- `RustAnalyzer::is_string_or_json_type`: textual containment checks on the
rendered path first; only when those fail and the rendering starts with
`Result`/`Option` is the first angle-bracketed argument of the last segment
inspected (recursively).  References recurse through the referent. -/
def is_string_or_json_type : RsType → Bool
  | .path segs =>
      let path_str := renderSegs segs
      if strContains path_str "String" || strContains path_str "str"
          || strContains path_str "Cow<str>" then
        true
      else if strStarts path_str "Result" || strStarts path_str "Option" then
        lastSegFirstArg segs
      else
        false
  | .ref e => is_string_or_json_type e
  | .verbatimTy _ => false

/-- `path.segments.last()` followed by the `AngleBracketed` check and
`args.iter().next()`. -/
def lastSegFirstArg : List PathSeg → Bool
  | [] => false
  | [.seg _ (.angle (a :: _))] => firstArgCheck a
  | [.seg _ _] => false
  | _ :: rest => lastSegFirstArg rest

/-- The `GenericArgument::Type` check on the first argument. -/
def firstArgCheck : GenericArg → Bool
  | .tyArg t => is_string_or_json_type t
  | .otherArg _ => false
end

/-- `CodeTransformer::analyze_return_type`: `ReturnType::Default` is `none`. -/
def analyze_return_type : Option RsType → Bool
  | none => false
  | some ty => is_string_or_json_type ty

/-- A metadata marker (`syn::Attribute`), classified by the path and meta
shape the transformer inspects: name-value documentation (`#[doc = "…"]`,
carrying the text), other `doc`-path attributes (e.g. `#[doc(hidden)]`),
derive markers, list-form `#[cfg(…)]` with its token text, `#[test]`,
and everything else. -/
inductive Attr where
  | doc (text : String) : Attr
  | docList : Attr
  | derive : Attr
  | cfg (tokens : String) : Attr
  | test : Attr
  | otherAttr : Attr
deriving DecidableEq, Repr

/-- `attr.path().is_ident("doc")`. -/
def pathIsDoc : Attr → Bool
  | .doc _ => true
  | .docList => true
  | _ => false

/-- `attr.path().is_ident("test")`. -/
def pathIsTest : Attr → Bool
  | .test => true
  | _ => false

/-- `attr.path().is_ident("cfg")` (list form; the predicates below only
distinguish cfg attributes whose meta is a `Meta::List`). -/
def pathIsCfg : Attr → Bool
  | .cfg _ => true
  | _ => false

/-- `attr.path().is_ident("derive")`. -/
def pathIsDerive : Attr → Bool
  | .derive => true
  | _ => false

/-- The doc text of a name-value `#[doc = "…"]` attribute
(`attr.meta.require_name_value()` + string literal). -/
def docTextOf : Attr → Option String
  | .doc t => some t
  | _ => none

/-- `CodeTransformer::is_cfg_test_attribute`: a `#[cfg(...)]` whose token
text contains `"test"`. -/
def is_cfg_test_attribute : Attr → Bool
  | .cfg toks => strContains toks "test"
  | _ => false

/-- `CodeTransformer::has_test_attribute`. -/
def has_test_attribute (attrs : List Attr) : Bool :=
  attrs.any (fun a => pathIsTest a || (pathIsCfg a && is_cfg_test_attribute a))

/-- `CodeTransformer::process_attributes`: with `no_comments`, drop every
`doc`-path attribute; otherwise leave the list alone. -/
def process_attributes (nc : Bool) (attrs : List Attr) : List Attr :=
  if nc then attrs.filter (fun a => !pathIsDoc a) else attrs

/-- A function body.  The transformer only ever replaces a body wholesale
with the empty block `{}`, so statements are kept opaque. -/
inductive Block where
  | mk (stmts : List String) : Block
deriving DecidableEq, Repr

/-- `parse_quote!({})`. -/
def emptyBlock : Block := .mk []

/-- A structure field: only its metadata markers are ever inspected. -/
structure Field where
  attrs : List Attr
deriving DecidableEq, Repr

/-- An enumeration variant: only its metadata markers matter here. -/
structure Variant where
  attrs : List Attr
deriving DecidableEq, Repr

/-- A trait member (`syn::TraitItem`): a method with signature (return
type) and optional default body, or any other member kind (const, type,
macro), which the trait arm never touches. -/
inductive TraitItem where
  | fnTI (attrs : List Attr) (ret : Option RsType) (default : Option Block) : TraitItem
  | otherTI : TraitItem

/-- An implementation-block member (`syn::ImplItem`). -/
inductive ImplItem where
  | fnII (attrs : List Attr) (ret : Option RsType) (body : Block) : ImplItem
  | otherII : ImplItem

/-- A declaration (`syn::Item`), restricted to the payloads the transformer
reads or writes.  `otherItem` stands for the `Item` variants outside the
fourteen with implemented metadata access (e.g. `Item::Verbatim`), which
carry no attribute list. -/
inductive Item where
  | fnDecl (attrs : List Attr) (ret : Option RsType) (body : Block) : Item
  | modDecl (attrs : List Attr) (content : Option (List Item)) : Item
  | structDecl (attrs : List Attr) (fields : List Field) : Item
  | enumDecl (attrs : List Attr) (variants : List Variant) : Item
  | traitDecl (attrs : List Attr) (items : List TraitItem) : Item
  | implDecl (attrs : List Attr) (traitRef : Option (List PathSeg))
      (items : List ImplItem) : Item
  | typeAliasDecl (attrs : List Attr) : Item
  | constDecl (attrs : List Attr) : Item
  | staticDecl (attrs : List Attr) : Item
  | useDecl (attrs : List Attr) : Item
  | extCrateDecl (attrs : List Attr) : Item
  | foreignModDecl (attrs : List Attr) : Item
  | macItemDecl (attrs : List Attr) : Item
  | traitAliasDecl (attrs : List Attr) : Item
  | unionDecl (attrs : List Attr) : Item
  | otherItem : Item

/-- A source file (`syn::File`): file-level attributes and top-level items. -/
structure SrcFile where
  attrs : List Attr
  items : List Item

/-- `CodeTransformer::get_attrs`: attribute access for the fourteen
recognized variants; `&[]` for the rest. -/
def get_attrs : Item → List Attr
  | .fnDecl a _ _ => a
  | .modDecl a _ => a
  | .structDecl a _ => a
  | .enumDecl a _ => a
  | .traitDecl a _ => a
  | .implDecl a _ _ => a
  | .typeAliasDecl a => a
  | .constDecl a => a
  | .staticDecl a => a
  | .useDecl a => a
  | .extCrateDecl a => a
  | .foreignModDecl a => a
  | .macItemDecl a => a
  | .traitAliasDecl a => a
  | .unionDecl a => a
  | .otherItem => []

/-- Replace an item's attribute list (the write half of `get_attrs_mut`,
for the variants where it is implemented). -/
def setAttrs : Item → List Attr → Item
  | .fnDecl _ r b, a => .fnDecl a r b
  | .modDecl _ c, a => .modDecl a c
  | .structDecl _ fs, a => .structDecl a fs
  | .enumDecl _ vs, a => .enumDecl a vs
  | .traitDecl _ ts, a => .traitDecl a ts
  | .implDecl _ tr is, a => .implDecl a tr is
  | .typeAliasDecl _, a => .typeAliasDecl a
  | .constDecl _, a => .constDecl a
  | .staticDecl _, a => .staticDecl a
  | .useDecl _, a => .useDecl a
  | .extCrateDecl _, a => .extCrateDecl a
  | .foreignModDecl _, a => .foreignModDecl a
  | .macItemDecl _, a => .macItemDecl a
  | .traitAliasDecl _, a => .traitAliasDecl a
  | .unionDecl _, a => .unionDecl a
  | .otherItem, _ => .otherItem

/-- `CodeTransformer::should_remove_item`: a `#[test]`-path attribute, or a
`Meta::List` attribute whose list path is `cfg` and whose tokens contain
`"test"`.  (On this model it coincides with `has_test_attribute`.) -/
def should_remove_item (i : Item) : Bool :=
  (get_attrs i).any (fun a => pathIsTest a || is_cfg_test_attribute a)

/-- `CodeTransformer::is_derived_implementation`, as a predicate on the
implementation block's attribute list. -/
def is_derived_implementation (attrs : List Attr) : Bool :=
  attrs.any pathIsDerive

/-- `CodeTransformer::is_serialize_impl`: rendered trait path contains
`"Serialize"`. -/
def is_serialize_impl (traitRef : Option (List PathSeg)) : Bool :=
  match traitRef with
  | some p => strContains (renderSegs p) "Serialize"
  | none => false

/-- `CodeTransformer::add_trait_method_comment`: with `no_comments` just
drop `doc` attributes; otherwise collect the name-value doc texts, clear
every `doc`-path attribute, then append the synthetic status marker, a
blank doc line when prior documentation existed, and the collected text. -/
def add_trait_method_comment (nc : Bool) : TraitItem → TraitItem
  | .fnTI a r d =>
      if nc then .fnTI (a.filter (fun x => !pathIsDoc x)) r d
      else
        let docStrings := a.filterMap docTextOf
        let cleared := a.filter (fun x => !pathIsDoc x)
        let status :=
          if d.isNone then Attr.doc " This is a required method"
          else Attr.doc " There is a default implementation"
        let newAttrs :=
          (if docStrings.isEmpty then [status] else [status, Attr.doc ""]) ++
            docStrings.map Attr.doc
        .fnTI (cleared ++ newAttrs) r d
  | .otherTI => .otherTI

/-- The body-handling half of the `Item::Trait` arm for one trait member:
process attributes, then clear a default body whose return type is not
string-like. -/
def traitBodyStep (nc : Bool) : TraitItem → TraitItem
  | .fnTI a r d =>
      let a' := process_attributes nc a
      let d' := if d.isSome && !analyze_return_type r then some emptyBlock else d
      .fnTI a' r d'
  | .otherTI => .otherTI

/-- One trait member's full processing in the `Item::Trait` arm. -/
def traitMethodStep (nc : Bool) (ti : TraitItem) : TraitItem :=
  add_trait_method_comment nc (traitBodyStep nc ti)

/-- One member's processing in the `Item::Impl` arm, given the block-level
derive/serialize classification. -/
def implItemStep (nc derived serial : Bool) : ImplItem → ImplItem
  | .fnII a r b =>
      let a' := process_attributes nc a
      .fnII a' r
        (if derived || (!serial && !analyze_return_type r) then emptyBlock else b)
  | .otherII => .otherII

/-- The non-module arms of `visit_item_mut`'s match.  The `Item::Fn` arm
replaces the body unconditionally; the trait/impl/struct/enum arms are as
in the source; every other variant falls to the default visitation, which
touches nothing in this fragment. -/
def leafArm (nc : Bool) : Item → Item
  | .fnDecl a r _ => .fnDecl (process_attributes nc a) r emptyBlock
  | .traitDecl a ms =>
      .traitDecl (process_attributes nc a) (ms.map (traitMethodStep nc))
  | .implDecl a tr is =>
      let a' := process_attributes nc a
      let derived := is_derived_implementation a'
      let serial := is_serialize_impl tr
      .implDecl a' tr (is.map (implItemStep nc derived serial))
  | .structDecl a fs =>
      .structDecl (process_attributes nc a)
        (fs.map (fun f => ⟨process_attributes nc f.attrs⟩))
  | .enumDecl a vs => .enumDecl (process_attributes nc a) vs
  | i => i

/-- `visit_item_mut` on a non-module item: the test-attribute entry guard,
then the matching arm. -/
def visitNonMod (nc : Bool) (i : Item) : Item :=
  if has_test_attribute (get_attrs i) then i else leafArm nc i

mutual
/-- `visit_item_mut`.  The `Item::Mod` arm is the only recursive one: the
entry guard, the (subsumed) in-arm test guard that would clear the content,
the attribute processing, and the recursion into the content list.  Failure
is the `panic!` of `get_attrs_mut`, reachable only through module contents. -/
def transformItem (nc : Bool) : Item → Except String Item
  | .modDecl a none =>
      if has_test_attribute a then .ok (.modDecl a none)
      else if has_test_attribute a then .ok (.modDecl a none)
      else .ok (.modDecl (process_attributes nc a) none)
  | .modDecl a (some items) =>
      if has_test_attribute a then .ok (.modDecl a (some items))
      else if has_test_attribute a then .ok (.modDecl a (some []))
      else do
        let l ← transformModItems nc items
        .ok (.modDecl (process_attributes nc a) (some l))
  | i => .ok (visitNonMod nc i)

/-- The per-item body of the `Item::Mod` arm's loop over retained content:
`process_attributes(get_attrs_mut(item))` (the `panic!` site for the
unrecognized variants) followed by `self.visit_item_mut(item)`, fused per
constructor.  For a nested module the subsequent `visit_item_mut` is the
`Item::Mod` arm applied to the attribute-processed module, written out
here (entry guard, dead in-arm guard, second attribute pass, content
recursion). -/
def preVisitItem (nc : Bool) : Item → Except String Item
  | .otherItem => .error "Unexpected item type"
  | .modDecl a none =>
      let a1 := process_attributes nc a
      if has_test_attribute a1 then .ok (.modDecl a1 none)
      else if has_test_attribute a1 then .ok (.modDecl a1 none)
      else .ok (.modDecl (process_attributes nc a1) none)
  | .modDecl a (some items) =>
      let a1 := process_attributes nc a
      if has_test_attribute a1 then .ok (.modDecl a1 (some items))
      else if has_test_attribute a1 then .ok (.modDecl a1 (some []))
      else do
        let l ← transformModItems nc items
        .ok (.modDecl (process_attributes nc a1) (some l))
  | j => .ok (visitNonMod nc (setAttrs j (process_attributes nc (get_attrs j))))
termination_by structural i => i

/-- The `Item::Mod` arm's content handling:
`items.retain(!has_test_attribute(get_attrs(item)))` followed by the
per-item loop, rendered as one traversal that skips test-marked members
(the loop body never inspects neighbours, so retain-then-loop and
skip-as-you-go coincide). -/
def transformModItems (nc : Bool) : List Item → Except String (List Item)
  | [] => .ok []
  | j :: js =>
      if has_test_attribute (get_attrs j) then transformModItems nc js
      else do
        let j2 ← preVisitItem nc j
        let rest ← transformModItems nc js
        .ok (j2 :: rest)
termination_by structural l => l
end

/-- The loop of `visit_file_mut` over the retained top-level items. -/
def transformTopItems (nc : Bool) : List Item → Except String (List Item)
  | [] => .ok []
  | i :: is => do
      let i' ← transformItem nc i
      let is' ← transformTopItems nc is
      .ok (i' :: is')

/-- `visit_file_mut`: drop file-level doc attributes under `no_comments`,
remove the test-related top-level items, visit the survivors. -/
def transformFile (nc : Bool) (f : SrcFile) : Except String SrcFile := do
  let fa := if nc then f.attrs.filter (fun x => !pathIsDoc x) else f.attrs
  let kept := f.items.filter (fun i => !should_remove_item i)
  let l ← transformTopItems nc kept
  .ok ⟨fa, l⟩

/-! ### Observation predicates over trees -/

/-- Observation used to distinguish transformation results: the doc texts
on the first method of the first trait item (empty for errors and other
shapes). -/
def firstTraitMethodDocTexts : Except String SrcFile → List String
  | .ok f =>
      match f.items with
      | .traitDecl _ (.fnTI a _ _ :: _) :: _ => a.filterMap docTextOf
      | _ => []
  | .error _ => []

mutual
/-- No declaration in this item (itself, or nested in module content at any
depth) carries a test marker or a `cfg(..test..)` marker. -/
def noTestDeepItem : Item → Bool
  | .modDecl a (some l) => !has_test_attribute a && noTestDeepList l
  | i => !has_test_attribute (get_attrs i)
termination_by structural i => i

def noTestDeepList : List Item → Bool
  | [] => true
  | j :: js => noTestDeepItem j && noTestDeepList js
termination_by structural l => l
end

mutual
/-- Every free function in this item (top item, or nested in module content
at any depth) has the empty block as its body. -/
def fnBodiesEmptyItem : Item → Bool
  | .fnDecl _ _ (.mk []) => true
  | .fnDecl _ _ (.mk (_ :: _)) => false
  | .modDecl _ (some l) => fnBodiesEmptyList l
  | _ => true
termination_by structural i => i

def fnBodiesEmptyList : List Item → Bool
  | [] => true
  | j :: js => fnBodiesEmptyItem j && fnBodiesEmptyList js
termination_by structural l => l
end

mutual
/-- No variant without implemented metadata access sits inside any module
content of this item (at any depth).  A top-level `otherItem` is harmless —
only module contents flow through `get_attrs_mut`. -/
def noOtherInItem : Item → Bool
  | .modDecl _ (some l) => noOtherInList l
  | _ => true
termination_by structural i => i

def noOtherInList : List Item → Bool
  | [] => true
  | .otherItem :: _ => false
  | j :: js => noOtherInItem j && noOtherInList js
termination_by structural l => l
end

/-- The non-documentation markers of an attribute list. -/
def nd (l : List Attr) : List Attr := l.filter (fun a => !pathIsDoc a)

/-- Non-documentation markers of a trait member. -/
def ndTraitItem : TraitItem → List Attr
  | .fnTI a _ _ => nd a
  | .otherTI => []

/-- Non-documentation markers of an implementation-block member. -/
def ndImplItem : ImplItem → List Attr
  | .fnII a _ _ => nd a
  | .otherII => []

mutual
/-- The preorder profile of non-documentation markers of an item and of
every retained declaration/member below it: own markers first, then
fields, variants, trait members, impl members, or (for modules) the
retained content items.  Test-marked module members are skipped, mirroring
what the pass retains. -/
def ndProfileItem : Item → List (List Attr)
  | .modDecl a (some l) => nd a :: ndProfileList l
  | .modDecl a none => [nd a]
  | .structDecl a fs => nd a :: fs.map (fun f => nd f.attrs)
  | .enumDecl a vs => nd a :: vs.map (fun v => nd v.attrs)
  | .traitDecl a ms => nd a :: ms.map ndTraitItem
  | .implDecl a _ is => nd a :: is.map ndImplItem
  | .otherItem => []
  | i => [nd (get_attrs i)]
termination_by structural i => i

def ndProfileList : List Item → List (List Attr)
  | [] => []
  | j :: js =>
      (if has_test_attribute (get_attrs j) then [] else ndProfileItem j) ++
        ndProfileList js
termination_by structural l => l
end

/-! ### Basic lemmas about attribute processing -/

theorem filter_nondoc_idem (l : List Attr) :
    (l.filter (fun a => !pathIsDoc a)).filter (fun a => !pathIsDoc a) =
      l.filter (fun a => !pathIsDoc a) := by
  induction l with
  | nil => rfl
  | cons a l ih =>
      by_cases h : pathIsDoc a <;> simp [List.filter, h, ih]

theorem process_attributes_idem (nc : Bool) (l : List Attr) :
    process_attributes nc (process_attributes nc l) = process_attributes nc l := by
  cases nc <;> simp [process_attributes, filter_nondoc_idem]

theorem has_test_filter_nondoc (l : List Attr) :
    has_test_attribute (l.filter (fun a => !pathIsDoc a)) = has_test_attribute l := by
  induction l with
  | nil => rfl
  | cons a l ih =>
      cases a <;> simp [List.filter, has_test_attribute, List.any, pathIsDoc,
        pathIsTest, pathIsCfg, is_cfg_test_attribute] at ih ⊢ <;> simp [ih]

theorem has_test_process_attributes (nc : Bool) (l : List Attr) :
    has_test_attribute (process_attributes nc l) = has_test_attribute l := by
  cases nc <;> simp [process_attributes, has_test_filter_nondoc]

theorem is_derived_filter_nondoc (l : List Attr) :
    is_derived_implementation (l.filter (fun a => !pathIsDoc a)) =
      is_derived_implementation l := by
  induction l with
  | nil => rfl
  | cons a l ih =>
      cases a <;> simp [List.filter, is_derived_implementation, pathIsDoc,
        pathIsDerive] at ih ⊢ <;> simp [ih]

theorem is_derived_process_attributes (nc : Bool) (l : List Attr) :
    is_derived_implementation (process_attributes nc l) =
      is_derived_implementation l := by
  cases nc <;> simp [process_attributes, is_derived_filter_nondoc]

theorem nd_filter_nondoc (l : List Attr) :
    nd (l.filter (fun a => !pathIsDoc a)) = nd l := by
  simp [nd, filter_nondoc_idem]

theorem nd_process_attributes (nc : Bool) (l : List Attr) :
    nd (process_attributes nc l) = nd l := by
  cases nc <;> simp [process_attributes, nd_filter_nondoc]

theorem should_remove_eq_has_test (i : Item) :
    should_remove_item i = has_test_attribute (get_attrs i) := by
  unfold should_remove_item has_test_attribute
  induction get_attrs i with
  | nil => rfl
  | cons a l ih => cases a <;>
      simp [List.any, pathIsTest, pathIsCfg, is_cfg_test_attribute] at ih ⊢ <;>
      simp [ih]

theorem all_nondoc_filter (l : List Attr) :
    (l.filter (fun a => !pathIsDoc a)).all (fun a => !pathIsDoc a) = true := by
  induction l with
  | nil => rfl
  | cons a l ih => by_cases h : pathIsDoc a <;> simp [List.filter, h, ih]

theorem all_nondoc_process_true (l : List Attr) :
    (process_attributes true l).all (fun a => !pathIsDoc a) = true := by
  simp [process_attributes, all_nondoc_filter]

/-! ### Shape of `visit_item_mut` on the non-module arms -/

theorem transformItem_fnDecl (nc : Bool) (a : List Attr) (r : Option RsType)
    (b : Block) (h : has_test_attribute a = false) :
    transformItem nc (.fnDecl a r b) =
      .ok (.fnDecl (process_attributes nc a) r emptyBlock) := by
  simp [transformItem, visitNonMod, get_attrs, h, leafArm]

theorem transformItem_traitDecl (nc : Bool) (a : List Attr) (ms : List TraitItem)
    (h : has_test_attribute a = false) :
    transformItem nc (.traitDecl a ms) =
      .ok (.traitDecl (process_attributes nc a) (ms.map (traitMethodStep nc))) := by
  simp [transformItem, visitNonMod, get_attrs, h, leafArm]

theorem transformItem_implDecl (nc : Bool) (a : List Attr)
    (tr : Option (List PathSeg)) (items : List ImplItem)
    (h : has_test_attribute a = false) :
    transformItem nc (.implDecl a tr items) =
      .ok (.implDecl (process_attributes nc a) tr
        (items.map (implItemStep nc
          (is_derived_implementation (process_attributes nc a))
          (is_serialize_impl tr)))) := by
  simp [transformItem, visitNonMod, get_attrs, h, leafArm]

theorem transformItem_structDecl (nc : Bool) (a : List Attr) (fs : List Field)
    (h : has_test_attribute a = false) :
    transformItem nc (.structDecl a fs) =
      .ok (.structDecl (process_attributes nc a)
        (fs.map (fun f => ⟨process_attributes nc f.attrs⟩))) := by
  simp [transformItem, visitNonMod, get_attrs, h, leafArm]

theorem transformItem_enumDecl (nc : Bool) (a : List Attr) (vs : List Variant)
    (h : has_test_attribute a = false) :
    transformItem nc (.enumDecl a vs) =
      .ok (.enumDecl (process_attributes nc a) vs) := by
  simp [transformItem, visitNonMod, get_attrs, h, leafArm]

theorem process_attributes_false (l : List Attr) : process_attributes false l = l := rfl

/-- The per-member step of the `Item::Impl` arm, rewritten into the
derive-first / serialize-or-string-like cascade. -/
theorem implItemStep_fnII (nc derived serial : Bool) (ma : List Attr)
    (mr : Option RsType) (mb : Block) :
    implItemStep nc derived serial (.fnII ma mr mb) =
      .fnII (process_attributes nc ma) mr
        (if derived then emptyBlock
         else if serial || analyze_return_type mr then mb
         else emptyBlock) := by
  cases derived <;> cases serial <;> cases h : analyze_return_type mr <;>
    simp [implItemStep, h]

/-- The `Item::Trait` arm's per-method step with documentation preserved,
on a method that has a default body. -/
theorem traitMethodStep_false_default (ma : List Attr) (mr : Option RsType)
    (b : Block) :
    traitMethodStep false (.fnTI ma mr (some b)) =
      .fnTI ((ma.filter (fun x => !pathIsDoc x)) ++
          ((if (ma.filterMap docTextOf).isEmpty
             then [Attr.doc " There is a default implementation"]
             else [Attr.doc " There is a default implementation", Attr.doc ""]) ++
            (ma.filterMap docTextOf).map Attr.doc)) mr
        (some (if analyze_return_type mr then b else emptyBlock)) := by
  cases h : analyze_return_type mr <;>
    simp [traitMethodStep, traitBodyStep, add_trait_method_comment, h,
      process_attributes]

/-- `lastSegFirstArg` only ever inspects the final segment's first
angle-bracketed argument. -/
theorem lastSegFirstArg_append (segs : List PathSeg) (id : String)
    (args : PathArgs) :
    lastSegFirstArg (segs ++ [.seg id args]) =
      lastSegFirstArg [.seg id args] := by
  induction segs with
  | nil => rfl
  | cons s ss ih =>
      cases ss with
      | nil => simp [lastSegFirstArg]
      | cons t ts => simpa [lastSegFirstArg] using ih

/-! ### Preservation of the test classification across the pass -/

theorem get_attrs_setAttrs (j : Item) (l : List Attr) (h : j ≠ .otherItem) :
    get_attrs (setAttrs j l) = l := by
  cases j <;> simp [setAttrs, get_attrs] at h ⊢

theorem has_test_get_attrs_leafArm (nc : Bool) (i : Item) :
    has_test_attribute (get_attrs (leafArm nc i)) =
      has_test_attribute (get_attrs i) := by
  cases i <;> simp [leafArm, get_attrs, has_test_process_attributes]

theorem has_test_get_attrs_visitNonMod (nc : Bool) (i : Item) :
    has_test_attribute (get_attrs (visitNonMod nc i)) =
      has_test_attribute (get_attrs i) := by
  unfold visitNonMod
  by_cases h : has_test_attribute (get_attrs i) <;>
    simp [h, has_test_get_attrs_leafArm]

/-! ### Deep preservation of test-freeness -/

theorem preVisitItem_eq_leaf (nc : Bool) (j : Item)
    (h1 : j ≠ .otherItem) (h2 : ∀ a c, j ≠ .modDecl a c) :
    preVisitItem nc j =
      .ok (visitNonMod nc (setAttrs j (process_attributes nc (get_attrs j)))) := by
  cases j <;> first
    | exact absurd rfl h1
    | exact absurd rfl (h2 _ _)
    | rfl

theorem preVisitItem_eq_leafArm (nc : Bool) (j : Item)
    (h1 : j ≠ .otherItem) (h2 : ∀ a c, j ≠ .modDecl a c)
    (ht : has_test_attribute (get_attrs j) = false) :
    preVisitItem nc j =
      .ok (leafArm nc (setAttrs j (process_attributes nc (get_attrs j)))) := by
  rw [preVisitItem_eq_leaf nc j h1 h2]
  congr 1
  unfold visitNonMod
  rw [get_attrs_setAttrs _ _ h1, has_test_process_attributes, ht]
  simp

theorem noTestDeepItem_leafArm_setAttrs (nc : Bool) (j : Item)
    (h2 : ∀ a c, j ≠ .modDecl a c)
    (ht : has_test_attribute (get_attrs j) = false) :
    noTestDeepItem (leafArm nc (setAttrs j (process_attributes nc (get_attrs j)))) = true := by
  cases j <;> first
    | exact absurd rfl (h2 _ _)
    | simp_all [leafArm, setAttrs, get_attrs, noTestDeepItem,
        has_test_process_attributes]

theorem noTestDeep_core (nc : Bool) :
    (∀ l, ∀ l', transformModItems nc l = .ok l' → noTestDeepList l' = true) ∧
    (∀ j, has_test_attribute (get_attrs j) = false →
      ∀ j', preVisitItem nc j = .ok j' → noTestDeepItem j' = true) := by
  refine transformModItems.mutual_induct nc
    (fun l => ∀ l', transformModItems nc l = .ok l' → noTestDeepList l' = true)
    (fun j => has_test_attribute (get_attrs j) = false →
      ∀ j', preVisitItem nc j = .ok j' → noTestDeepItem j' = true)
    ?hOther ?hMN1 ?hMN2 ?hMN3 ?hMS1 ?hMS2 ?hMS3 ?hLeaf ?hNil ?hSkip ?hGo
  case hOther => intro _ j' h'; simp [preVisitItem] at h'
  case hMN1 =>
    intro a; dsimp only; intro ht hfalse j' h'
    rw [get_attrs, ← has_test_process_attributes nc a, ht] at hfalse
    exact absurd hfalse (by decide)
  case hMN2 =>
    intro a; dsimp only; intro hf ht hfalse j' h'
    rw [get_attrs, ← has_test_process_attributes nc a, ht] at hfalse
    exact absurd hfalse (by decide)
  case hMN3 =>
    intro a; dsimp only; intro hf1 hf2 hfalse j' h'
    rw [preVisitItem] at h'
    rw [if_neg hf1, if_neg hf2] at h'
    simp only [Except.ok.injEq] at h'
    subst h'
    rw [get_attrs] at hfalse
    simp [noTestDeepItem, get_attrs, has_test_process_attributes, hfalse]
  case hMS1 =>
    intro a items; dsimp only; intro ht hfalse j' h'
    rw [get_attrs, ← has_test_process_attributes nc a, ht] at hfalse
    exact absurd hfalse (by decide)
  case hMS2 =>
    intro a items; dsimp only; intro hf ht hfalse j' h'
    rw [get_attrs, ← has_test_process_attributes nc a, ht] at hfalse
    exact absurd hfalse (by decide)
  case hMS3 =>
    intro a items; dsimp only; intro hf1 hf2 ih hfalse j' h'
    rw [preVisitItem] at h'
    rw [if_neg hf1, if_neg hf2] at h'
    cases hl : transformModItems nc items with
    | error e =>
        rw [hl] at h'
        simp only [Bind.bind, Except.bind] at h'
        cases h'
    | ok l2 =>
        rw [hl] at h'
        simp only [Bind.bind, Except.bind, Except.ok.injEq] at h'
        subst h'
        rw [get_attrs] at hfalse
        simp [noTestDeepItem, get_attrs, has_test_process_attributes, hfalse,
          ih l2 hl]
  case hLeaf =>
    intro j hno hmn hms hfalse j' h'
    have h1 : j ≠ .otherItem := fun h => hno h
    have h2 : ∀ a c, j ≠ .modDecl a c := by
      intro a c h
      cases c with
      | none => exact hmn a h
      | some items => exact hms a items h
    rw [preVisitItem_eq_leafArm nc j h1 h2 hfalse] at h'
    simp only [Except.ok.injEq] at h'
    subst h'
    exact noTestDeepItem_leafArm_setAttrs nc j h2 hfalse
  case hNil =>
    intro l' h'
    simp only [transformModItems, Except.ok.injEq] at h'
    subst h'
    rfl
  case hSkip =>
    intro j js ht ih l' h'
    rw [transformModItems, if_pos ht] at h'
    exact ih l' h'
  case hGo =>
    intro j js ht ih ihs l' h'
    have ht' : has_test_attribute (get_attrs j) = false := by
      simpa using ht
    rw [transformModItems, if_neg ht] at h'
    cases hp : preVisitItem nc j with
    | error e =>
        rw [hp] at h'
        simp only [Bind.bind, Except.bind] at h'
        cases h'
    | ok j2 =>
        rw [hp] at h'
        cases hr : transformModItems nc js with
        | error e =>
            rw [hr] at h'
            simp only [Bind.bind, Except.bind] at h'
            cases h'
        | ok rest =>
            rw [hr] at h'
            simp only [Bind.bind, Except.bind, Except.ok.injEq] at h'
            subst h'
            simp [noTestDeepList, ih ht' j2 hp, ihs rest hr]

/-- `noTestDeepItem` holds for the image of a non-test non-module item
under `leafArm` alone (the file-level loop applies no attribute
pre-processing). -/
theorem noTestDeepItem_leafArm (nc : Bool) (j : Item)
    (h2 : ∀ a c, j ≠ .modDecl a c)
    (ht : has_test_attribute (get_attrs j) = false) :
    noTestDeepItem (leafArm nc j) = true := by
  cases j <;> first
    | exact absurd rfl (h2 _ _)
    | simp_all [leafArm, get_attrs, noTestDeepItem, has_test_process_attributes]

/-- Item-level test-freeness: `visit_item_mut` on a non-test item yields a
deeply test-free item. -/
theorem transformItem_noTestDeep (nc : Bool) (i i' : Item)
    (hT : has_test_attribute (get_attrs i) = false)
    (h : transformItem nc i = .ok i') : noTestDeepItem i' = true := by
  cases i with
  | modDecl a c =>
      rw [get_attrs] at hT
      cases c with
      | none =>
          rw [transformItem, if_neg (by simp [hT]), if_neg (by simp [hT])] at h
          simp only [Except.ok.injEq] at h
          subst h
          simp [noTestDeepItem, get_attrs, has_test_process_attributes, hT]
      | some items =>
          rw [transformItem, if_neg (by simp [hT]), if_neg (by simp [hT])] at h
          cases hl : transformModItems nc items with
          | error e =>
              rw [hl] at h
              simp only [Bind.bind, Except.bind] at h
              cases h
          | ok l2 =>
              rw [hl] at h
              simp only [Bind.bind, Except.bind, Except.ok.injEq] at h
              subst h
              simp [noTestDeepItem, get_attrs, has_test_process_attributes, hT,
                (noTestDeep_core nc).1 items l2 hl]
  | otherItem =>
      simp only [transformItem, visitNonMod, get_attrs, has_test_attribute,
        List.any_nil, leafArm, Except.ok.injEq] at h
      subst h
      rfl
  | fnDecl a r b =>
      simp only [transformItem, visitNonMod, get_attrs] at h hT
      simp only [hT, Bool.false_eq_true, if_false, Except.ok.injEq] at h
      subst h
      exact noTestDeepItem_leafArm nc _ (by intro _ _ h; cases h) hT
  | structDecl a fs =>
      simp only [transformItem, visitNonMod, get_attrs] at h hT
      simp only [hT, Bool.false_eq_true, if_false, Except.ok.injEq] at h
      subst h
      exact noTestDeepItem_leafArm nc _ (by intro _ _ h; cases h) hT
  | enumDecl a vs =>
      simp only [transformItem, visitNonMod, get_attrs] at h hT
      simp only [hT, Bool.false_eq_true, if_false, Except.ok.injEq] at h
      subst h
      exact noTestDeepItem_leafArm nc _ (by intro _ _ h; cases h) hT
  | traitDecl a ms =>
      simp only [transformItem, visitNonMod, get_attrs] at h hT
      simp only [hT, Bool.false_eq_true, if_false, Except.ok.injEq] at h
      subst h
      exact noTestDeepItem_leafArm nc _ (by intro _ _ h; cases h) hT
  | implDecl a tr is =>
      simp only [transformItem, visitNonMod, get_attrs] at h hT
      simp only [hT, Bool.false_eq_true, if_false, Except.ok.injEq] at h
      subst h
      exact noTestDeepItem_leafArm nc _ (by intro _ _ h; cases h) hT
  | typeAliasDecl a =>
      simp only [transformItem, visitNonMod, get_attrs] at h hT
      simp only [hT, Bool.false_eq_true, if_false, Except.ok.injEq] at h
      subst h
      exact noTestDeepItem_leafArm nc _ (by intro _ _ h; cases h) hT
  | constDecl a =>
      simp only [transformItem, visitNonMod, get_attrs] at h hT
      simp only [hT, Bool.false_eq_true, if_false, Except.ok.injEq] at h
      subst h
      exact noTestDeepItem_leafArm nc _ (by intro _ _ h; cases h) hT
  | staticDecl a =>
      simp only [transformItem, visitNonMod, get_attrs] at h hT
      simp only [hT, Bool.false_eq_true, if_false, Except.ok.injEq] at h
      subst h
      exact noTestDeepItem_leafArm nc _ (by intro _ _ h; cases h) hT
  | useDecl a =>
      simp only [transformItem, visitNonMod, get_attrs] at h hT
      simp only [hT, Bool.false_eq_true, if_false, Except.ok.injEq] at h
      subst h
      exact noTestDeepItem_leafArm nc _ (by intro _ _ h; cases h) hT
  | extCrateDecl a =>
      simp only [transformItem, visitNonMod, get_attrs] at h hT
      simp only [hT, Bool.false_eq_true, if_false, Except.ok.injEq] at h
      subst h
      exact noTestDeepItem_leafArm nc _ (by intro _ _ h; cases h) hT
  | foreignModDecl a =>
      simp only [transformItem, visitNonMod, get_attrs] at h hT
      simp only [hT, Bool.false_eq_true, if_false, Except.ok.injEq] at h
      subst h
      exact noTestDeepItem_leafArm nc _ (by intro _ _ h; cases h) hT
  | macItemDecl a =>
      simp only [transformItem, visitNonMod, get_attrs] at h hT
      simp only [hT, Bool.false_eq_true, if_false, Except.ok.injEq] at h
      subst h
      exact noTestDeepItem_leafArm nc _ (by intro _ _ h; cases h) hT
  | traitAliasDecl a =>
      simp only [transformItem, visitNonMod, get_attrs] at h hT
      simp only [hT, Bool.false_eq_true, if_false, Except.ok.injEq] at h
      subst h
      exact noTestDeepItem_leafArm nc _ (by intro _ _ h; cases h) hT
  | unionDecl a =>
      simp only [transformItem, visitNonMod, get_attrs] at h hT
      simp only [hT, Bool.false_eq_true, if_false, Except.ok.injEq] at h
      subst h
      exact noTestDeepItem_leafArm nc _ (by intro _ _ h; cases h) hT

/-- Inversion of the file-level loop on a cons cell. -/
theorem transformTopItems_cons_inv (nc : Bool) (j : Item) (js : List Item)
    (l' : List Item) (h : transformTopItems nc (j :: js) = .ok l') :
    ∃ j' rest, transformItem nc j = .ok j' ∧
      transformTopItems nc js = .ok rest ∧ l' = j' :: rest := by
  rw [transformTopItems] at h
  cases hp : transformItem nc j with
  | error e =>
      rw [hp] at h
      simp only [Bind.bind, Except.bind] at h
      cases h
  | ok j2 =>
      rw [hp] at h
      cases hr : transformTopItems nc js with
      | error e =>
          rw [hr] at h
          simp only [Bind.bind, Except.bind] at h
          cases h
      | ok rest =>
          rw [hr] at h
          simp only [Bind.bind, Except.bind, Except.ok.injEq] at h
          exact ⟨j2, rest, rfl, rfl, h.symm⟩

/-- Inversion of `visit_file_mut`. -/
theorem transformFile_inv (nc : Bool) (f f' : SrcFile)
    (h : transformFile nc f = .ok f') :
    ∃ l, transformTopItems nc
        (f.items.filter (fun i => !should_remove_item i)) = .ok l ∧
      f' = ⟨if nc then f.attrs.filter (fun x => !pathIsDoc x) else f.attrs, l⟩ := by
  simp only [transformFile] at h
  cases hk : transformTopItems nc
      (f.items.filter (fun i => !should_remove_item i)) with
  | error e =>
      rw [hk] at h
      simp only [Bind.bind, Except.bind] at h
      cases h
  | ok l =>
      rw [hk] at h
      simp only [Bind.bind, Except.bind, Except.ok.injEq] at h
      exact ⟨l, rfl, h.symm⟩

/-- The file-level loop on hereditarily non-test inputs yields a deeply
test-free forest. -/
theorem transformTopItems_noTestDeep (nc : Bool) (l : List Item)
    (hl : ∀ j ∈ l, has_test_attribute (get_attrs j) = false) :
    ∀ l', transformTopItems nc l = .ok l' → noTestDeepList l' = true := by
  induction l with
  | nil =>
      intro l' h'
      simp only [transformTopItems, Except.ok.injEq] at h'
      subst h'
      rfl
  | cons j js ih =>
      intro l' h'
      obtain ⟨j', rest, hj, hr, hcons⟩ := transformTopItems_cons_inv nc j js l' h'
      subst hcons
      have hjT := hl j (List.mem_cons_self j js)
      simp [noTestDeepList, transformItem_noTestDeep nc j j' hjT hj,
        ih (fun x hx => hl x (List.mem_cons_of_mem j hx)) rest hr]

/-! ### Deep emptiness of free-function bodies -/

theorem transformItem_eq_visitNonMod (nc : Bool) (i : Item)
    (h2 : ∀ a c, i ≠ .modDecl a c) :
    transformItem nc i = .ok (visitNonMod nc i) := by
  cases i <;> first | exact absurd rfl (h2 _ _) | rfl

theorem fnBodiesEmptyItem_leafArm (nc : Bool) (j : Item)
    (h2 : ∀ a c, j ≠ .modDecl a c) :
    fnBodiesEmptyItem (leafArm nc j) = true := by
  cases j <;> first
    | exact absurd rfl (h2 _ _)
    | simp [leafArm, fnBodiesEmptyItem, emptyBlock]

theorem fnBodiesEmptyItem_setAttrs (j : Item) (l : List Attr)
    (h2 : ∀ a c, j ≠ .modDecl a c) :
    fnBodiesEmptyItem (setAttrs j l) = fnBodiesEmptyItem j := by
  cases j with
  | modDecl a c => exact absurd rfl (h2 _ _)
  | fnDecl a r b => rcases b with ⟨_ | _⟩ <;> rfl
  | _ => rfl

theorem setAttrs_ne_mod (j : Item) (l : List Attr)
    (h2 : ∀ a c, j ≠ .modDecl a c) : ∀ a c, setAttrs j l ≠ .modDecl a c := by
  intro a c h
  cases j with
  | modDecl a0 c0 => exact absurd rfl (h2 a0 c0)
  | _ => simp [setAttrs] at h

theorem fnBodiesEmpty_core (nc : Bool) :
    (∀ l, ∀ l', transformModItems nc l = .ok l' → fnBodiesEmptyList l' = true) ∧
    (∀ j, has_test_attribute (get_attrs j) = false →
      ∀ j', preVisitItem nc j = .ok j' → fnBodiesEmptyItem j' = true) := by
  refine transformModItems.mutual_induct nc
    (fun l => ∀ l', transformModItems nc l = .ok l' → fnBodiesEmptyList l' = true)
    (fun j => has_test_attribute (get_attrs j) = false →
      ∀ j', preVisitItem nc j = .ok j' → fnBodiesEmptyItem j' = true)
    ?hOther ?hMN1 ?hMN2 ?hMN3 ?hMS1 ?hMS2 ?hMS3 ?hLeaf ?hNil ?hSkip ?hGo
  case hOther => intro _ j' h'; simp [preVisitItem] at h'
  case hMN1 =>
    intro a; dsimp only; intro ht hfalse j' h'
    rw [get_attrs, ← has_test_process_attributes nc a, ht] at hfalse
    exact absurd hfalse (by decide)
  case hMN2 =>
    intro a; dsimp only; intro hf ht hfalse j' h'
    rw [get_attrs, ← has_test_process_attributes nc a, ht] at hfalse
    exact absurd hfalse (by decide)
  case hMN3 =>
    intro a; dsimp only; intro hf1 hf2 hfalse j' h'
    rw [preVisitItem] at h'
    rw [if_neg hf1, if_neg hf2] at h'
    simp only [Except.ok.injEq] at h'
    subst h'
    rfl
  case hMS1 =>
    intro a items; dsimp only; intro ht hfalse j' h'
    rw [get_attrs, ← has_test_process_attributes nc a, ht] at hfalse
    exact absurd hfalse (by decide)
  case hMS2 =>
    intro a items; dsimp only; intro hf ht hfalse j' h'
    rw [get_attrs, ← has_test_process_attributes nc a, ht] at hfalse
    exact absurd hfalse (by decide)
  case hMS3 =>
    intro a items; dsimp only; intro hf1 hf2 ih hfalse j' h'
    rw [preVisitItem] at h'
    rw [if_neg hf1, if_neg hf2] at h'
    cases hl : transformModItems nc items with
    | error e =>
        rw [hl] at h'
        simp only [Bind.bind, Except.bind] at h'
        cases h'
    | ok l2 =>
        rw [hl] at h'
        simp only [Bind.bind, Except.bind, Except.ok.injEq] at h'
        subst h'
        simp [fnBodiesEmptyItem, ih l2 hl]
  case hLeaf =>
    intro j hno hmn hms hfalse j' h'
    have h1 : j ≠ .otherItem := fun h => hno h
    have h2 : ∀ a c, j ≠ .modDecl a c := by
      intro a c h
      cases c with
      | none => exact hmn a h
      | some items => exact hms a items h
    rw [preVisitItem_eq_leafArm nc j h1 h2 hfalse] at h'
    simp only [Except.ok.injEq] at h'
    subst h'
    exact fnBodiesEmptyItem_leafArm nc _ (setAttrs_ne_mod j _ h2)
  case hNil =>
    intro l' h'
    simp only [transformModItems, Except.ok.injEq] at h'
    subst h'
    rfl
  case hSkip =>
    intro j js ht ih l' h'
    rw [transformModItems, if_pos ht] at h'
    exact ih l' h'
  case hGo =>
    intro j js ht ih ihs l' h'
    have ht' : has_test_attribute (get_attrs j) = false := by simpa using ht
    rw [transformModItems, if_neg ht] at h'
    cases hp : preVisitItem nc j with
    | error e =>
        rw [hp] at h'
        simp only [Bind.bind, Except.bind] at h'
        cases h'
    | ok j2 =>
        rw [hp] at h'
        cases hr : transformModItems nc js with
        | error e =>
            rw [hr] at h'
            simp only [Bind.bind, Except.bind] at h'
            cases h'
        | ok rest =>
            rw [hr] at h'
            simp only [Bind.bind, Except.bind, Except.ok.injEq] at h'
            subst h'
            simp [fnBodiesEmptyList, ih ht' j2 hp, ihs rest hr]

theorem transformItem_fnBodiesEmpty (nc : Bool) (i i' : Item)
    (hT : has_test_attribute (get_attrs i) = false)
    (h : transformItem nc i = .ok i') : fnBodiesEmptyItem i' = true := by
  cases i with
  | modDecl a c =>
      rw [get_attrs] at hT
      cases c with
      | none =>
          rw [transformItem, if_neg (by simp [hT]), if_neg (by simp [hT])] at h
          simp only [Except.ok.injEq] at h
          subst h
          rfl
      | some items =>
          rw [transformItem, if_neg (by simp [hT]), if_neg (by simp [hT])] at h
          cases hl : transformModItems nc items with
          | error e =>
              rw [hl] at h
              simp only [Bind.bind, Except.bind] at h
              cases h
          | ok l2 =>
              rw [hl] at h
              simp only [Bind.bind, Except.bind, Except.ok.injEq] at h
              subst h
              simp [fnBodiesEmptyItem, (fnBodiesEmpty_core nc).1 items l2 hl]
  | _ =>
      rw [transformItem_eq_visitNonMod nc _ (by intro a c hc; cases hc)] at h
      simp only [Except.ok.injEq] at h
      subst h
      unfold visitNonMod
      rw [hT]
      simp only [Bool.false_eq_true, if_false]
      exact fnBodiesEmptyItem_leafArm nc _ (by intro a c hc; cases hc)

theorem transformTopItems_fnBodiesEmpty (nc : Bool) (l : List Item)
    (hl : ∀ j ∈ l, has_test_attribute (get_attrs j) = false) :
    ∀ l', transformTopItems nc l = .ok l' → fnBodiesEmptyList l' = true := by
  induction l with
  | nil =>
      intro l' h'
      simp only [transformTopItems, Except.ok.injEq] at h'
      subst h'
      rfl
  | cons j js ih =>
      intro l' h'
      obtain ⟨j', rest, hj, hr, hcons⟩ := transformTopItems_cons_inv nc j js l' h'
      subst hcons
      simp [fnBodiesEmptyList,
        transformItem_fnBodiesEmpty nc j j' (hl j (List.mem_cons_self j js)) hj,
        ih (fun x hx => hl x (List.mem_cons_of_mem j hx)) rest hr]

/-! ### The single failure mode -/

theorem error_message_core (nc : Bool) :
    (∀ l, ∀ e, transformModItems nc l = .error e → e = "Unexpected item type") ∧
    (∀ j, ∀ e, preVisitItem nc j = .error e → e = "Unexpected item type") := by
  refine transformModItems.mutual_induct nc
    (fun l => ∀ e, transformModItems nc l = .error e → e = "Unexpected item type")
    (fun j => ∀ e, preVisitItem nc j = .error e → e = "Unexpected item type")
    ?hOther ?hMN1 ?hMN2 ?hMN3 ?hMS1 ?hMS2 ?hMS3 ?hLeaf ?hNil ?hSkip ?hGo
  case hOther =>
    intro e h'
    simp only [preVisitItem, Except.error.injEq] at h'
    exact h'.symm
  case hMN1 =>
    intro a; dsimp only; intro ht e h'
    rw [preVisitItem, if_pos ht] at h'
    cases h'
  case hMN2 =>
    intro a; dsimp only; intro hf ht e h'
    rw [preVisitItem, if_neg hf, if_pos ht] at h'
    cases h'
  case hMN3 =>
    intro a; dsimp only; intro hf1 hf2 e h'
    rw [preVisitItem, if_neg hf1, if_neg hf2] at h'
    cases h'
  case hMS1 =>
    intro a items; dsimp only; intro ht e h'
    rw [preVisitItem, if_pos ht] at h'
    cases h'
  case hMS2 =>
    intro a items; dsimp only; intro hf ht e h'
    rw [preVisitItem, if_neg hf, if_pos ht] at h'
    cases h'
  case hMS3 =>
    intro a items; dsimp only; intro hf1 hf2 ih e h'
    rw [preVisitItem, if_neg hf1, if_neg hf2] at h'
    cases hl : transformModItems nc items with
    | error e2 =>
        rw [hl] at h'
        simp only [Bind.bind, Except.bind, Except.error.injEq] at h'
        subst h'
        exact ih e2 hl
    | ok l2 =>
        rw [hl] at h'
        simp only [Bind.bind, Except.bind] at h'
        cases h'
  case hLeaf =>
    intro j hno hmn hms e h'
    have h1 : j ≠ .otherItem := fun h => hno h
    have h2 : ∀ a c, j ≠ .modDecl a c := by
      intro a c h
      cases c with
      | none => exact hmn a h
      | some items => exact hms a items h
    rw [preVisitItem_eq_leaf nc j h1 h2] at h'
    cases h'
  case hNil => intro e h'; cases h'
  case hSkip =>
    intro j js ht ih e h'
    rw [transformModItems, if_pos ht] at h'
    exact ih e h'
  case hGo =>
    intro j js ht ih ihs e h'
    rw [transformModItems, if_neg ht] at h'
    cases hp : preVisitItem nc j with
    | error e2 =>
        rw [hp] at h'
        simp only [Bind.bind, Except.bind, Except.error.injEq] at h'
        subst h'
        exact ih e2 hp
    | ok j2 =>
        rw [hp] at h'
        cases hr : transformModItems nc js with
        | error e2 =>
            rw [hr] at h'
            simp only [Bind.bind, Except.bind, Except.error.injEq] at h'
            subst h'
            exact ihs e2 hr
        | ok rest =>
            rw [hr] at h'
            simp only [Bind.bind, Except.bind] at h'
            cases h'

theorem transformItem_error_message (nc : Bool) (i : Item) (e : String)
    (h : transformItem nc i = .error e) : e = "Unexpected item type" := by
  cases i with
  | modDecl a c =>
      cases c with
      | none =>
          by_cases ht : has_test_attribute a = true
          · rw [transformItem, if_pos ht] at h; cases h
          · rw [transformItem, if_neg ht, if_neg ht] at h; cases h
      | some items =>
          by_cases ht : has_test_attribute a = true
          · rw [transformItem, if_pos ht] at h; cases h
          · rw [transformItem, if_neg ht, if_neg ht] at h
            cases hl : transformModItems nc items with
            | error e2 =>
                rw [hl] at h
                simp only [Bind.bind, Except.bind, Except.error.injEq] at h
                subst h
                exact (error_message_core nc).1 items e2 hl
            | ok l2 =>
                rw [hl] at h
                simp only [Bind.bind, Except.bind] at h
                cases h
  | _ =>
      rw [transformItem_eq_visitNonMod nc _ (by intro a c hc; cases hc)] at h
      cases h

theorem transformTopItems_error_message (nc : Bool) (l : List Item)
    (e : String) (h : transformTopItems nc l = .error e) :
    e = "Unexpected item type" := by
  induction l with
  | nil => cases h
  | cons j js ih =>
      rw [transformTopItems] at h
      cases hp : transformItem nc j with
      | error e2 =>
          rw [hp] at h
          simp only [Bind.bind, Except.bind, Except.error.injEq] at h
          subst h
          exact transformItem_error_message nc j e2 hp
      | ok j2 =>
          rw [hp] at h
          cases hr : transformTopItems nc js with
          | error e2 =>
              rw [hr] at h
              simp only [Bind.bind, Except.bind, Except.error.injEq] at h
              subst h
              exact ih hr
          | ok rest =>
              rw [hr] at h
              simp only [Bind.bind, Except.bind] at h
              cases h

/-! ### Preservation of non-documentation markers -/

theorem nd_append (l1 l2 : List Attr) : nd (l1 ++ l2) = nd l1 ++ nd l2 := by
  simp [nd, List.filter_append]

theorem nd_cons_doc (s : String) (l : List Attr) :
    nd (Attr.doc s :: l) = nd l := by
  simp [nd, List.filter, pathIsDoc]

theorem nd_map_doc (xs : List String) : nd (xs.map Attr.doc) = [] := by
  induction xs with
  | nil => rfl
  | cons x xs ih => rw [List.map_cons, nd_cons_doc]; exact ih

/-- The `Item::Trait` arm's per-method step with documentation preserved,
on a method without a default body. -/
theorem traitMethodStep_false_none (ma : List Attr) (mr : Option RsType) :
    traitMethodStep false (.fnTI ma mr none) =
      .fnTI ((ma.filter (fun x => !pathIsDoc x)) ++
          ((if (ma.filterMap docTextOf).isEmpty
             then [Attr.doc " This is a required method"]
             else [Attr.doc " This is a required method", Attr.doc ""]) ++
            (ma.filterMap docTextOf).map Attr.doc)) mr none := by
  simp [traitMethodStep, traitBodyStep, add_trait_method_comment,
    process_attributes]

theorem ndTraitItem_step (nc : Bool) (m : TraitItem) :
    ndTraitItem (traitMethodStep nc m) = ndTraitItem m := by
  cases m with
  | otherTI => rfl
  | fnTI a r d =>
      cases nc with
      | true =>
          simp [traitMethodStep, traitBodyStep, add_trait_method_comment,
            ndTraitItem, process_attributes, nd, filter_nondoc_idem]
      | false =>
          cases d with
          | none =>
              rw [traitMethodStep_false_none]
              simp only [ndTraitItem]
              rw [nd_append, nd_append, nd_filter_nondoc, nd_map_doc]
              cases hd : (a.filterMap docTextOf).isEmpty <;>
                simp [hd, nd_cons_doc, nd, pathIsDoc]
          | some b =>
              rw [traitMethodStep_false_default]
              simp only [ndTraitItem]
              rw [nd_append, nd_append, nd_filter_nondoc, nd_map_doc]
              cases hd : (a.filterMap docTextOf).isEmpty <;>
                simp [hd, nd_cons_doc, nd, pathIsDoc]

theorem ndImplItem_step (nc derived serial : Bool) (m : ImplItem) :
    ndImplItem (implItemStep nc derived serial m) = ndImplItem m := by
  cases m with
  | otherII => rfl
  | fnII a r b => simp [implItemStep, ndImplItem, nd_process_attributes]


theorem ndProfileItem_leafArm (nc : Bool) (j : Item)
    (h2 : ∀ a c, j ≠ .modDecl a c) :
    ndProfileItem (leafArm nc j) = ndProfileItem j := by
  cases j with
  | modDecl a c => exact absurd rfl (h2 a c)
  | fnDecl a r b => simp [leafArm, ndProfileItem, get_attrs, nd_process_attributes]
  | structDecl a fs =>
      simp only [leafArm, ndProfileItem, nd_process_attributes, List.map_map]
      refine congrArg _ (List.map_congr_left ?_)
      intro f _
      simp [nd_process_attributes]
  | enumDecl a vs => simp [leafArm, ndProfileItem, get_attrs, nd_process_attributes]
  | traitDecl a ms =>
      simp only [leafArm, ndProfileItem, nd_process_attributes, List.map_map]
      refine congrArg _ (List.map_congr_left ?_)
      intro m _
      exact ndTraitItem_step nc m
  | implDecl a tr is =>
      simp only [leafArm, ndProfileItem, nd_process_attributes, List.map_map]
      refine congrArg _ (List.map_congr_left ?_)
      intro m _
      exact ndImplItem_step nc _ _ m
  | _ => rfl

theorem ndProfileItem_setAttrs_pa (nc : Bool) (j : Item)
    (h2 : ∀ a c, j ≠ .modDecl a c) :
    ndProfileItem (setAttrs j (process_attributes nc (get_attrs j))) =
      ndProfileItem j := by
  cases j with
  | modDecl a c => exact absurd rfl (h2 a c)
  | otherItem => rfl
  | fnDecl a r b => simp [setAttrs, get_attrs, ndProfileItem, nd_process_attributes]
  | structDecl a fs => simp [setAttrs, get_attrs, ndProfileItem, nd_process_attributes]
  | enumDecl a vs => simp [setAttrs, get_attrs, ndProfileItem, nd_process_attributes]
  | traitDecl a ms => simp [setAttrs, get_attrs, ndProfileItem, nd_process_attributes]
  | implDecl a tr is => simp [setAttrs, get_attrs, ndProfileItem, nd_process_attributes]
  | typeAliasDecl a => simp [setAttrs, get_attrs, ndProfileItem, nd_process_attributes]
  | constDecl a => simp [setAttrs, get_attrs, ndProfileItem, nd_process_attributes]
  | staticDecl a => simp [setAttrs, get_attrs, ndProfileItem, nd_process_attributes]
  | useDecl a => simp [setAttrs, get_attrs, ndProfileItem, nd_process_attributes]
  | extCrateDecl a => simp [setAttrs, get_attrs, ndProfileItem, nd_process_attributes]
  | foreignModDecl a => simp [setAttrs, get_attrs, ndProfileItem, nd_process_attributes]
  | macItemDecl a => simp [setAttrs, get_attrs, ndProfileItem, nd_process_attributes]
  | traitAliasDecl a => simp [setAttrs, get_attrs, ndProfileItem, nd_process_attributes]
  | unionDecl a => simp [setAttrs, get_attrs, ndProfileItem, nd_process_attributes]


/-- The processed item of the module loop keeps its test classification. -/
theorem preVisitItem_has_test (nc : Bool) (j j' : Item)
    (h : preVisitItem nc j = .ok j') :
    has_test_attribute (get_attrs j') = has_test_attribute (get_attrs j) := by
  cases j with
  | otherItem => simp [preVisitItem] at h
  | modDecl a c =>
      cases c with
      | none =>
          by_cases ht : has_test_attribute (process_attributes nc a) = true
          · rw [preVisitItem, if_pos ht] at h
            simp only [Except.ok.injEq] at h
            subst h
            simp [get_attrs, has_test_process_attributes]
          · rw [preVisitItem, if_neg ht, if_neg ht] at h
            simp only [Except.ok.injEq] at h
            subst h
            simp [get_attrs, has_test_process_attributes]
      | some items =>
          by_cases ht : has_test_attribute (process_attributes nc a) = true
          · rw [preVisitItem, if_pos ht] at h
            simp only [Except.ok.injEq] at h
            subst h
            simp [get_attrs, has_test_process_attributes]
          · rw [preVisitItem, if_neg ht, if_neg ht] at h
            cases hl : transformModItems nc items with
            | error e =>
                rw [hl] at h
                simp only [Bind.bind, Except.bind] at h
                cases h
            | ok l2 =>
                rw [hl] at h
                simp only [Bind.bind, Except.bind, Except.ok.injEq] at h
                subst h
                simp [get_attrs, has_test_process_attributes]
  | _ =>
      rw [preVisitItem_eq_leaf nc _ (by intro hc; cases hc)
        (by intro a c hc; cases hc)] at h
      simp only [Except.ok.injEq] at h
      subst h
      rw [has_test_get_attrs_visitNonMod,
        get_attrs_setAttrs _ _ (by intro hc; cases hc),
        has_test_process_attributes]

/-- `visit_item_mut` keeps the test classification of its input. -/
theorem transformItem_has_test (nc : Bool) (i i' : Item)
    (h : transformItem nc i = .ok i') :
    has_test_attribute (get_attrs i') = has_test_attribute (get_attrs i) := by
  cases i with
  | modDecl a c =>
      cases c with
      | none =>
          by_cases ht : has_test_attribute a = true
          · rw [transformItem, if_pos ht] at h
            simp only [Except.ok.injEq] at h
            subst h
            rfl
          · rw [transformItem, if_neg ht, if_neg ht] at h
            simp only [Except.ok.injEq] at h
            subst h
            simp [get_attrs, has_test_process_attributes]
      | some items =>
          by_cases ht : has_test_attribute a = true
          · rw [transformItem, if_pos ht] at h
            simp only [Except.ok.injEq] at h
            subst h
            rfl
          · rw [transformItem, if_neg ht, if_neg ht] at h
            cases hl : transformModItems nc items with
            | error e =>
                rw [hl] at h
                simp only [Bind.bind, Except.bind] at h
                cases h
            | ok l2 =>
                rw [hl] at h
                simp only [Bind.bind, Except.bind, Except.ok.injEq] at h
                subst h
                simp [get_attrs, has_test_process_attributes]
  | _ =>
      rw [transformItem_eq_visitNonMod nc _ (by intro a c hc; cases hc)] at h
      simp only [Except.ok.injEq] at h
      subst h
      exact has_test_get_attrs_visitNonMod nc _

theorem ndProfile_core (nc : Bool) :
    (∀ l, ∀ l', transformModItems nc l = .ok l' →
      ndProfileList l' = ndProfileList l) ∧
    (∀ j, has_test_attribute (get_attrs j) = false →
      ∀ j', preVisitItem nc j = .ok j' → ndProfileItem j' = ndProfileItem j) := by
  refine transformModItems.mutual_induct nc
    (fun l => ∀ l', transformModItems nc l = .ok l' →
      ndProfileList l' = ndProfileList l)
    (fun j => has_test_attribute (get_attrs j) = false →
      ∀ j', preVisitItem nc j = .ok j' → ndProfileItem j' = ndProfileItem j)
    ?hOther ?hMN1 ?hMN2 ?hMN3 ?hMS1 ?hMS2 ?hMS3 ?hLeaf ?hNil ?hSkip ?hGo
  case hOther => intro _ j' h'; simp [preVisitItem] at h'
  case hMN1 =>
    intro a; dsimp only; intro ht hfalse j' h'
    rw [get_attrs, ← has_test_process_attributes nc a, ht] at hfalse
    exact absurd hfalse (by decide)
  case hMN2 =>
    intro a; dsimp only; intro hf ht hfalse j' h'
    rw [get_attrs, ← has_test_process_attributes nc a, ht] at hfalse
    exact absurd hfalse (by decide)
  case hMN3 =>
    intro a; dsimp only; intro hf1 hf2 hfalse j' h'
    rw [preVisitItem, if_neg hf1, if_neg hf2] at h'
    simp only [Except.ok.injEq] at h'
    subst h'
    simp [ndProfileItem, nd_process_attributes]
  case hMS1 =>
    intro a items; dsimp only; intro ht hfalse j' h'
    rw [get_attrs, ← has_test_process_attributes nc a, ht] at hfalse
    exact absurd hfalse (by decide)
  case hMS2 =>
    intro a items; dsimp only; intro hf ht hfalse j' h'
    rw [get_attrs, ← has_test_process_attributes nc a, ht] at hfalse
    exact absurd hfalse (by decide)
  case hMS3 =>
    intro a items; dsimp only; intro hf1 hf2 ih hfalse j' h'
    rw [preVisitItem, if_neg hf1, if_neg hf2] at h'
    cases hl : transformModItems nc items with
    | error e =>
        rw [hl] at h'
        simp only [Bind.bind, Except.bind] at h'
        cases h'
    | ok l2 =>
        rw [hl] at h'
        simp only [Bind.bind, Except.bind, Except.ok.injEq] at h'
        subst h'
        simp [ndProfileItem, nd_process_attributes, ih l2 hl]
  case hLeaf =>
    intro j hno hmn hms hfalse j' h'
    have h1 : j ≠ .otherItem := fun h => hno h
    have h2 : ∀ a c, j ≠ .modDecl a c := by
      intro a c h
      cases c with
      | none => exact hmn a h
      | some items => exact hms a items h
    rw [preVisitItem_eq_leafArm nc j h1 h2 hfalse] at h'
    simp only [Except.ok.injEq] at h'
    subst h'
    rw [ndProfileItem_leafArm nc _ (setAttrs_ne_mod j _ h2)]
    exact ndProfileItem_setAttrs_pa nc j h2
  case hNil =>
    intro l' h'
    simp only [transformModItems, Except.ok.injEq] at h'
    subst h'
    rfl
  case hSkip =>
    intro j js ht ih l' h'
    rw [transformModItems, if_pos ht] at h'
    rw [ih l' h']
    simp [ndProfileList, ht]
  case hGo =>
    intro j js ht ih ihs l' h'
    have ht' : has_test_attribute (get_attrs j) = false := by simpa using ht
    rw [transformModItems, if_neg ht] at h'
    cases hp : preVisitItem nc j with
    | error e =>
        rw [hp] at h'
        simp only [Bind.bind, Except.bind] at h'
        cases h'
    | ok j2 =>
        rw [hp] at h'
        cases hr : transformModItems nc js with
        | error e =>
            rw [hr] at h'
            simp only [Bind.bind, Except.bind] at h'
            cases h'
        | ok rest =>
            rw [hr] at h'
            simp only [Bind.bind, Except.bind, Except.ok.injEq] at h'
            subst h'
            have hj2 : has_test_attribute (get_attrs j2) = false := by
              rw [preVisitItem_has_test nc j j2 hp]; exact ht'
            simp [ndProfileList, ht', hj2, ih ht' j2 hp, ihs rest hr]

theorem transformItem_ndProfile (nc : Bool) (i i' : Item)
    (hT : has_test_attribute (get_attrs i) = false)
    (h : transformItem nc i = .ok i') : ndProfileItem i' = ndProfileItem i := by
  cases i with
  | modDecl a c =>
      rw [get_attrs] at hT
      cases c with
      | none =>
          rw [transformItem, if_neg (by simp [hT]), if_neg (by simp [hT])] at h
          simp only [Except.ok.injEq] at h
          subst h
          simp [ndProfileItem, nd_process_attributes]
      | some items =>
          rw [transformItem, if_neg (by simp [hT]), if_neg (by simp [hT])] at h
          cases hl : transformModItems nc items with
          | error e =>
              rw [hl] at h
              simp only [Bind.bind, Except.bind] at h
              cases h
          | ok l2 =>
              rw [hl] at h
              simp only [Bind.bind, Except.bind, Except.ok.injEq] at h
              subst h
              simp [ndProfileItem, nd_process_attributes,
                (ndProfile_core nc).1 items l2 hl]
  | _ =>
      rw [transformItem_eq_visitNonMod nc _ (by intro a c hc; cases hc)] at h
      simp only [Except.ok.injEq] at h
      subst h
      unfold visitNonMod
      rw [hT]
      simp only [Bool.false_eq_true, if_false]
      exact ndProfileItem_leafArm nc _ (by intro a c hc; cases hc)

theorem transformTopItems_ndProfile (nc : Bool) (l : List Item)
    (hl : ∀ j ∈ l, has_test_attribute (get_attrs j) = false) :
    ∀ l', transformTopItems nc l = .ok l' → ndProfileList l' = ndProfileList l := by
  induction l with
  | nil =>
      intro l' h'
      simp only [transformTopItems, Except.ok.injEq] at h'
      subst h'
      rfl
  | cons j js ih =>
      intro l' h'
      obtain ⟨j', rest, hj, hr, hcons⟩ := transformTopItems_cons_inv nc j js l' h'
      subst hcons
      have hjT := hl j (List.mem_cons_self j js)
      have hj'T : has_test_attribute (get_attrs j') = false := by
        rw [transformItem_has_test nc j j' hj]; exact hjT
      simp [ndProfileList, hjT, hj'T,
        transformItem_ndProfile nc j j' hjT hj,
        ih (fun x hx => hl x (List.mem_cons_of_mem j hx)) rest hr]

/-- Dropping the test-marked items does not change the retained-marker
profile: `ndProfileList` already skips them. -/
theorem ndProfileList_filter (l : List Item) :
    ndProfileList (l.filter (fun i => !should_remove_item i)) =
      ndProfileList l := by
  induction l with
  | nil => rfl
  | cons j js ih =>
      by_cases ht : has_test_attribute (get_attrs j) = true
      · rw [List.filter_cons_of_neg (by simp [should_remove_eq_has_test, ht])]
        rw [ih]
        simp [ndProfileList, ht]
      · rw [List.filter_cons_of_pos (by simp [should_remove_eq_has_test]; simpa using ht)]
        simp only [ndProfileList]
        rw [ih]


/-! ### Idempotence machinery -/

theorem filter_nondoc_fixed (l : List Attr)
    (h : l.all (fun a => !pathIsDoc a) = true) :
    l.filter (fun a => !pathIsDoc a) = l :=
  List.filter_eq_self.mpr (fun a ha => List.all_eq_true.mp h a ha)

theorem traitMethodStep_true_idem (m : TraitItem) :
    traitMethodStep true (traitMethodStep true m) = traitMethodStep true m := by
  cases m with
  | otherTI => rfl
  | fnTI a r d =>
      cases d with
      | none =>
          simp [traitMethodStep, traitBodyStep, add_trait_method_comment,
            process_attributes, filter_nondoc_idem]
      | some b =>
          cases hr : analyze_return_type r <;>
            simp [traitMethodStep, traitBodyStep, add_trait_method_comment,
              process_attributes, filter_nondoc_idem, hr]

theorem implItemStep_idem (nc derived serial : Bool) (m : ImplItem) :
    implItemStep nc derived serial (implItemStep nc derived serial m) =
      implItemStep nc derived serial m := by
  cases m with
  | otherII => rfl
  | fnII a r b =>
      cases derived <;> cases serial <;> cases hr : analyze_return_type r <;>
        simp [implItemStep, hr, process_attributes_idem]

theorem leafArm_true_idem (i : Item) :
    leafArm true (leafArm true i) = leafArm true i := by
  cases i with
  | fnDecl a r b => simp [leafArm, process_attributes_idem]
  | structDecl a fs =>
      simp only [leafArm, process_attributes_idem, List.map_map, Item.structDecl.injEq]
      refine ⟨by trivial, List.map_congr_left ?_⟩
      intro f _
      simp [process_attributes_idem]
  | enumDecl a vs => simp [leafArm, process_attributes_idem]
  | traitDecl a ms =>
      simp only [leafArm, process_attributes_idem, List.map_map, Item.traitDecl.injEq]
      refine ⟨by trivial, List.map_congr_left ?_⟩
      intro m _
      exact traitMethodStep_true_idem m
  | implDecl a tr is =>
      simp only [leafArm, process_attributes_idem, List.map_map, Item.implDecl.injEq]
      refine ⟨by trivial, by trivial, List.map_congr_left ?_⟩
      intro m _
      exact implItemStep_idem true _ _ m
  | _ => rfl


theorem setAttrs_get_attrs (j : Item) (h1 : j ≠ .otherItem) :
    setAttrs j (get_attrs j) = j := by
  cases j <;> first | exact absurd rfl h1 | rfl

theorem leafArm_setAttrs_pa_idem (i : Item) (h2 : ∀ a c, i ≠ .modDecl a c)
    (ha : process_attributes true (get_attrs i) = get_attrs i) :
    leafArm true (setAttrs (leafArm true i)
      (process_attributes true (get_attrs (leafArm true i)))) = leafArm true i := by
  cases i with
  | modDecl a c => exact absurd rfl (h2 a c)
  | otherItem => rfl
  | fnDecl a r b => simp [leafArm, setAttrs, get_attrs, process_attributes_idem]
  | enumDecl a vs => simp [leafArm, setAttrs, get_attrs, process_attributes_idem]
  | structDecl a fs =>
      simp only [leafArm, setAttrs, get_attrs, process_attributes_idem,
        List.map_map, Item.structDecl.injEq]
      refine ⟨by trivial, List.map_congr_left ?_⟩
      intro f _
      simp [process_attributes_idem]
  | traitDecl a ms =>
      simp only [leafArm, setAttrs, get_attrs, process_attributes_idem,
        List.map_map, Item.traitDecl.injEq]
      refine ⟨by trivial, List.map_congr_left ?_⟩
      intro m _
      exact traitMethodStep_true_idem m
  | implDecl a tr is =>
      simp only [leafArm, setAttrs, get_attrs, process_attributes_idem,
        List.map_map, Item.implDecl.injEq]
      refine ⟨by trivial, by trivial, List.map_congr_left ?_⟩
      intro m _
      exact implItemStep_idem true _ _ m
  | typeAliasDecl a =>
      rw [get_attrs] at ha
      simp [leafArm, setAttrs, get_attrs, ha]
  | constDecl a =>
      rw [get_attrs] at ha
      simp [leafArm, setAttrs, get_attrs, ha]
  | staticDecl a =>
      rw [get_attrs] at ha
      simp [leafArm, setAttrs, get_attrs, ha]
  | useDecl a =>
      rw [get_attrs] at ha
      simp [leafArm, setAttrs, get_attrs, ha]
  | extCrateDecl a =>
      rw [get_attrs] at ha
      simp [leafArm, setAttrs, get_attrs, ha]
  | foreignModDecl a =>
      rw [get_attrs] at ha
      simp [leafArm, setAttrs, get_attrs, ha]
  | macItemDecl a =>
      rw [get_attrs] at ha
      simp [leafArm, setAttrs, get_attrs, ha]
  | traitAliasDecl a =>
      rw [get_attrs] at ha
      simp [leafArm, setAttrs, get_attrs, ha]
  | unionDecl a =>
      rw [get_attrs] at ha
      simp [leafArm, setAttrs, get_attrs, ha]

theorem leafArm_ne_mod (nc : Bool) (j : Item) (h2 : ∀ a c, j ≠ .modDecl a c) :
    ∀ a c, leafArm nc j ≠ .modDecl a c := by
  intro a c h
  cases j with
  | modDecl a0 c0 => exact absurd rfl (h2 a0 c0)
  | _ => simp [leafArm] at h

theorem leafArm_ne_other (nc : Bool) (j : Item) (h1 : j ≠ .otherItem) :
    leafArm nc j ≠ .otherItem := by
  intro h
  cases j <;> first | exact absurd rfl h1 | simp [leafArm] at h

theorem setAttrs_ne_other (j : Item) (l : List Attr) (h1 : j ≠ .otherItem) :
    setAttrs j l ≠ .otherItem := by
  intro h
  cases j <;> first | exact absurd rfl h1 | simp [setAttrs] at h


theorem preVisit_step_true_idem (j : Item)
    (h1 : j ≠ .otherItem) (h2 : ∀ a c, j ≠ .modDecl a c)
    (ht : has_test_attribute (get_attrs j) = false) :
    preVisitItem true
        (leafArm true (setAttrs j (process_attributes true (get_attrs j)))) =
      .ok (leafArm true (setAttrs j (process_attributes true (get_attrs j)))) := by
  have hj1o := setAttrs_ne_other j (process_attributes true (get_attrs j)) h1
  have hj1m := setAttrs_ne_mod j (process_attributes true (get_attrs j)) h2
  have hj2o := leafArm_ne_other true _ hj1o
  have hj2m := leafArm_ne_mod true _ hj1m
  rw [preVisitItem_eq_leaf true _ hj2o hj2m]
  congr 1
  unfold visitNonMod
  rw [get_attrs_setAttrs _ _ hj2o, has_test_process_attributes,
    has_test_get_attrs_leafArm, get_attrs_setAttrs _ _ h1,
    has_test_process_attributes, ht]
  simp only [Bool.false_eq_true, if_false]
  exact leafArm_setAttrs_pa_idem _ hj1m
    (by rw [get_attrs_setAttrs _ _ h1, process_attributes_idem])

theorem idem_core :
    (∀ l, ∀ l', transformModItems true l = .ok l' →
      transformModItems true l' = .ok l') ∧
    (∀ j, has_test_attribute (get_attrs j) = false →
      ∀ j', preVisitItem true j = .ok j' → preVisitItem true j' = .ok j') := by
  refine transformModItems.mutual_induct true
    (fun l => ∀ l', transformModItems true l = .ok l' →
      transformModItems true l' = .ok l')
    (fun j => has_test_attribute (get_attrs j) = false →
      ∀ j', preVisitItem true j = .ok j' → preVisitItem true j' = .ok j')
    ?hOther ?hMN1 ?hMN2 ?hMN3 ?hMS1 ?hMS2 ?hMS3 ?hLeaf ?hNil ?hSkip ?hGo
  case hOther => intro _ j' h'; simp [preVisitItem] at h'
  case hMN1 =>
    intro a; dsimp only; intro ht hfalse j' h'
    rw [get_attrs, ← has_test_process_attributes true a, ht] at hfalse
    exact absurd hfalse (by decide)
  case hMN2 =>
    intro a; dsimp only; intro hf ht hfalse j' h'
    rw [get_attrs, ← has_test_process_attributes true a, ht] at hfalse
    exact absurd hfalse (by decide)
  case hMN3 =>
    intro a; dsimp only; intro hf1 hf2 hfalse j' h'
    rw [preVisitItem, if_neg hf1, if_neg hf2] at h'
    simp only [Except.ok.injEq] at h'
    subst h'
    rw [get_attrs] at hfalse
    have hb : has_test_attribute
        (process_attributes true (process_attributes true
          (process_attributes true a))) = false := by
      simp [has_test_process_attributes, hfalse]
    rw [preVisitItem, if_neg (by simp [hb]), if_neg (by simp [hb])]
    simp [process_attributes_idem]
  case hMS1 =>
    intro a items; dsimp only; intro ht hfalse j' h'
    rw [get_attrs, ← has_test_process_attributes true a, ht] at hfalse
    exact absurd hfalse (by decide)
  case hMS2 =>
    intro a items; dsimp only; intro hf ht hfalse j' h'
    rw [get_attrs, ← has_test_process_attributes true a, ht] at hfalse
    exact absurd hfalse (by decide)
  case hMS3 =>
    intro a items; dsimp only; intro hf1 hf2 ih hfalse j' h'
    rw [preVisitItem, if_neg hf1, if_neg hf2] at h'
    cases hl : transformModItems true items with
    | error e =>
        rw [hl] at h'
        simp only [Bind.bind, Except.bind] at h'
        cases h'
    | ok l2 =>
        rw [hl] at h'
        simp only [Bind.bind, Except.bind, Except.ok.injEq] at h'
        subst h'
        rw [get_attrs] at hfalse
        have hb : has_test_attribute
            (process_attributes true (process_attributes true
              (process_attributes true a))) = false := by
          simp [has_test_process_attributes, hfalse]
        rw [preVisitItem, if_neg (by simp [hb]), if_neg (by simp [hb])]
        rw [ih l2 hl]
        simp [Bind.bind, Except.bind, process_attributes_idem]
  case hLeaf =>
    intro j hno hmn hms hfalse j' h'
    have h1 : j ≠ .otherItem := fun h => hno h
    have h2 : ∀ a c, j ≠ .modDecl a c := by
      intro a c h
      cases c with
      | none => exact hmn a h
      | some items => exact hms a items h
    rw [preVisitItem_eq_leafArm true j h1 h2 hfalse] at h'
    simp only [Except.ok.injEq] at h'
    subst h'
    exact preVisit_step_true_idem j h1 h2 hfalse
  case hNil =>
    intro l' h'
    simp only [transformModItems, Except.ok.injEq] at h'
    subst h'
    rfl
  case hSkip =>
    intro j js ht ih l' h'
    rw [transformModItems, if_pos ht] at h'
    exact ih l' h'
  case hGo =>
    intro j js ht ih ihs l' h'
    have ht' : has_test_attribute (get_attrs j) = false := by simpa using ht
    rw [transformModItems, if_neg ht] at h'
    cases hp : preVisitItem true j with
    | error e =>
        rw [hp] at h'
        simp only [Bind.bind, Except.bind] at h'
        cases h'
    | ok j2 =>
        rw [hp] at h'
        cases hr : transformModItems true js with
        | error e =>
            rw [hr] at h'
            simp only [Bind.bind, Except.bind] at h'
            cases h'
        | ok rest =>
            rw [hr] at h'
            simp only [Bind.bind, Except.bind, Except.ok.injEq] at h'
            subst h'
            have hj2 : has_test_attribute (get_attrs j2) = false := by
              rw [preVisitItem_has_test true j j2 hp]; exact ht'
            rw [transformModItems, if_neg (by simp [hj2])]
            rw [ih ht' j2 hp, ihs rest hr]
            simp [Bind.bind, Except.bind]

theorem transformItem_true_idem (i i' : Item)
    (hT : has_test_attribute (get_attrs i) = false)
    (h : transformItem true i = .ok i') : transformItem true i' = .ok i' := by
  cases i with
  | modDecl a c =>
      rw [get_attrs] at hT
      cases c with
      | none =>
          rw [transformItem, if_neg (by simp [hT]), if_neg (by simp [hT])] at h
          simp only [Except.ok.injEq] at h
          subst h
          have hb : has_test_attribute (process_attributes true a) = false := by
            simp [has_test_process_attributes, hT]
          rw [transformItem, if_neg (by simp [hb]), if_neg (by simp [hb])]
          simp [process_attributes_idem]
      | some items =>
          rw [transformItem, if_neg (by simp [hT]), if_neg (by simp [hT])] at h
          cases hl : transformModItems true items with
          | error e =>
              rw [hl] at h
              simp only [Bind.bind, Except.bind] at h
              cases h
          | ok l2 =>
              rw [hl] at h
              simp only [Bind.bind, Except.bind, Except.ok.injEq] at h
              subst h
              have hb : has_test_attribute (process_attributes true a) = false := by
                simp [has_test_process_attributes, hT]
              rw [transformItem, if_neg (by simp [hb]), if_neg (by simp [hb])]
              rw [idem_core.1 items l2 hl]
              simp [Bind.bind, Except.bind, process_attributes_idem]
  | _ =>
      rw [transformItem_eq_visitNonMod true _ (by intro a c hc; cases hc)] at h
      simp only [Except.ok.injEq] at h
      subst h
      unfold visitNonMod
      rw [hT]
      simp only [Bool.false_eq_true, if_false]
      rw [transformItem_eq_visitNonMod true _
        (leafArm_ne_mod true _ (by intro a c hc; cases hc))]
      unfold visitNonMod
      rw [has_test_get_attrs_leafArm, hT]
      simp only [Bool.false_eq_true, if_false]
      rw [leafArm_true_idem]

theorem transformTopItems_not_test (nc : Bool) (l : List Item)
    (hl : ∀ j ∈ l, has_test_attribute (get_attrs j) = false) :
    ∀ l', transformTopItems nc l = .ok l' →
      ∀ j' ∈ l', has_test_attribute (get_attrs j') = false := by
  induction l with
  | nil =>
      intro l' h'
      simp only [transformTopItems, Except.ok.injEq] at h'
      subst h'
      intro j' hj'
      cases hj'
  | cons j js ih =>
      intro l' h'
      obtain ⟨j', rest, hj, hr, hcons⟩ := transformTopItems_cons_inv nc j js l' h'
      subst hcons
      intro x hx
      rcases List.mem_cons.mp hx with hx | hx
      · subst hx
        rw [transformItem_has_test nc j x hj]
        exact hl j (List.mem_cons_self j js)
      · exact ih (fun y hy => hl y (List.mem_cons_of_mem j hy)) rest hr x hx

theorem transformTopItems_true_idem (l : List Item)
    (hl : ∀ j ∈ l, has_test_attribute (get_attrs j) = false) :
    ∀ l', transformTopItems true l = .ok l' →
      transformTopItems true l' = .ok l' := by
  induction l with
  | nil =>
      intro l' h'
      simp only [transformTopItems, Except.ok.injEq] at h'
      subst h'
      rfl
  | cons j js ih =>
      intro l' h'
      obtain ⟨j', rest, hj, hr, hcons⟩ := transformTopItems_cons_inv true j js l' h'
      subst hcons
      rw [transformTopItems]
      rw [transformItem_true_idem j j' (hl j (List.mem_cons_self j js)) hj]
      rw [ih (fun y hy => hl y (List.mem_cons_of_mem j hy)) rest hr]
      simp [Bind.bind, Except.bind]


/-! ### Claim theorems -/

/-- **C1.** For every implementation-block member function, after the pass
(whose body handling does not depend on the policy flag): if the block
carries a derive marker the method's body is the empty block; otherwise the
body is preserved verbatim if and only if the block's trait reference
contains `"Serialize"` or the declared return type satisfies
`is_string_or_json_type`. -/
theorem impl_method_body_rule (nc : Bool) (a : List Attr)
    (tr : Option (List PathSeg)) (items : List ImplItem) (k : Nat)
    (ma : List Attr) (mr : Option RsType) (mb : Block)
    (hT : has_test_attribute a = false)
    (hk : items[k]? = some (.fnII ma mr mb))
    (hb : mb ≠ emptyBlock) :
    ∃ items' b',
      transformItem nc (.implDecl a tr items) =
        .ok (.implDecl (process_attributes nc a) tr items') ∧
      items'[k]? = some (.fnII (process_attributes nc ma) mr b') ∧
      b' = (if is_derived_implementation a then emptyBlock
            else if is_serialize_impl tr || analyze_return_type mr then mb
            else emptyBlock) ∧
      (is_derived_implementation a = true → b' = emptyBlock) ∧
      (is_derived_implementation a = false →
        (b' = mb ↔ (is_serialize_impl tr || analyze_return_type mr) = true)) := by
  refine ⟨items.map (implItemStep nc
      (is_derived_implementation (process_attributes nc a)) (is_serialize_impl tr)),
    (if is_derived_implementation a then emptyBlock
      else if is_serialize_impl tr || analyze_return_type mr then mb
      else emptyBlock),
    transformItem_implDecl nc a tr items hT, ?_, rfl, ?_, ?_⟩
  · rw [List.getElem?_map, hk, Option.map_some', implItemStep_fnII,
      is_derived_process_attributes]
  · intro hd; simp [hd]
  · intro hd
    cases hso : (is_serialize_impl tr || analyze_return_type mr) <;>
      simp [hd, hso, hb, Ne.symm hb]

/-- **C1 witness.** A non-derived `Serialize` implementation keeps the body
of a unit-returning method. -/
theorem impl_method_body_rule_witness :
    ∃ items' b',
      transformItem false (.implDecl [] (some [.seg "Serialize" .noArgs])
          [.fnII [] none (.mk ["body"])]) =
        .ok (.implDecl (process_attributes false [])
          (some [.seg "Serialize" .noArgs]) items') ∧
      items'[0]? = some (.fnII (process_attributes false []) none b') ∧
      b' = (if is_derived_implementation [] then emptyBlock
            else if is_serialize_impl (some [.seg "Serialize" .noArgs]) ||
                analyze_return_type none then .mk ["body"]
            else emptyBlock) ∧
      (is_derived_implementation [] = true → b' = emptyBlock) ∧
      (is_derived_implementation [] = false →
        (b' = .mk ["body"] ↔
          (is_serialize_impl (some [.seg "Serialize" .noArgs]) ||
            analyze_return_type none) = true)) :=
  impl_method_body_rule false [] (some [.seg "Serialize" .noArgs])
    [.fnII [] none (.mk ["body"])] 0 [] none (.mk ["body"])
    rfl rfl (by decide)

/-- **C2 counterexample.** `Result < i32 , String >` is classified
string-like although its first generic argument `i32` is not: the textual
containment check sees the error type's `String`. -/
theorem wrapper_first_argument_counterexample :
    is_string_or_json_type (.path [.seg "Result" (.angle
        [.tyArg (.path [.seg "i32" .noArgs]),
         .tyArg (.path [.seg "String" .noArgs])])]) = true ∧
    is_string_or_json_type (.path [.seg "i32" .noArgs]) = false := by
  exact ⟨rfl, rfl⟩

/-- **C2 (amended).** For a named type whose rendered path does not contain
`"String"`, `"str"`, or `"Cow<str>"` and whose rendering starts with
`Result` or `Option`: the predicate returns the string-likeness of the
first generic argument of the last segment, with the remaining arguments
(`rest`) never inspected.  (When the textual containment check fires — as
it does for an error type mentioning `String` — the predicate returns true
regardless of the first argument.) -/
theorem wrapper_first_argument_rule (segs : List PathSeg) (id : String)
    (a : GenericArg) (rest : List GenericArg)
    (hRO : (strStarts (renderSegs (segs ++ [.seg id (.angle (a :: rest))])) "Result" ||
        strStarts (renderSegs (segs ++ [.seg id (.angle (a :: rest))])) "Option") = true)
    (hTxt : (strContains (renderSegs (segs ++ [.seg id (.angle (a :: rest))])) "String" ||
        strContains (renderSegs (segs ++ [.seg id (.angle (a :: rest))])) "str" ||
        strContains (renderSegs (segs ++ [.seg id (.angle (a :: rest))])) "Cow<str>") = false) :
    is_string_or_json_type (.path (segs ++ [.seg id (.angle (a :: rest))])) =
      firstArgCheck a := by
  simp only [Bool.or_eq_false_iff] at hTxt
  obtain ⟨⟨h1, h2⟩, h3⟩ := hTxt
  rw [is_string_or_json_type, h1, h2, h3]
  simp only [Bool.or_eq_true] at hRO
  rcases hRO with h | h <;>
    simp [h, lastSegFirstArg_append, lastSegFirstArg]

/-- **C2 witness.** `Option < i32 >`: the textual check misses, the
rendering starts with `Option`, and the classification equals the
(negative) string-likeness of the first argument. -/
theorem wrapper_first_argument_rule_witness :
    is_string_or_json_type (.path ([] ++ [.seg "Option" (.angle
        [.tyArg (.path [.seg "i32" .noArgs])])])) =
      firstArgCheck (.tyArg (.path [.seg "i32" .noArgs])) :=
  wrapper_first_argument_rule [] "Option" (.tyArg (.path [.seg "i32" .noArgs])) []
    (by decide) (by decide)

/-- **C3.** For a trait method with a default body, after the pass with
documentation preserved: the default body is cleared to the empty block
exactly when the return type is not string-like, and the attribute list
becomes the non-doc markers followed by the single canonical
"has a default implementation" marker, a blank doc line exactly when prior
documentation existed, and the retained documentation. -/
theorem trait_default_method_rule (a : List Attr) (ms : List TraitItem)
    (k : Nat) (ma : List Attr) (mr : Option RsType) (b : Block)
    (hT : has_test_attribute a = false)
    (hk : ms[k]? = some (.fnTI ma mr (some b)))
    (hb : b ≠ emptyBlock) :
    ∃ ms' d',
      transformItem false (.traitDecl a ms) = .ok (.traitDecl a ms') ∧
      ms'[k]? = some (.fnTI
        ((ma.filter (fun x => !pathIsDoc x)) ++
          ((if (ma.filterMap docTextOf).isEmpty
             then [Attr.doc " There is a default implementation"]
             else [Attr.doc " There is a default implementation", Attr.doc ""]) ++
            (ma.filterMap docTextOf).map Attr.doc)) mr d') ∧
      d' = some (if analyze_return_type mr then b else emptyBlock) ∧
      (d' = some emptyBlock ↔ analyze_return_type mr = false) := by
  have h := transformItem_traitDecl false a ms hT
  rw [process_attributes_false] at h
  refine ⟨ms.map (traitMethodStep false),
    some (if analyze_return_type mr then b else emptyBlock), h, ?_, rfl, ?_⟩
  · rw [List.getElem?_map, hk, Option.map_some', traitMethodStep_false_default]
  · cases hr : analyze_return_type mr <;> simp [hb]

/-- **C3 witness.** A documented default method returning `i32` has its
body cleared and gains the marker, blank line, and retained text. -/
theorem trait_default_method_rule_witness :
    ∃ ms' d',
      transformItem false (.traitDecl []
          [.fnTI [Attr.doc " old docs"] (some (.path [.seg "i32" .noArgs]))
            (some (.mk ["42"]))]) = .ok (.traitDecl [] ms') ∧
      ms'[0]? = some (.fnTI
        (([Attr.doc " old docs"].filter (fun x => !pathIsDoc x)) ++
          ((if ([Attr.doc " old docs"].filterMap docTextOf).isEmpty
             then [Attr.doc " There is a default implementation"]
             else [Attr.doc " There is a default implementation", Attr.doc ""]) ++
            ([Attr.doc " old docs"].filterMap docTextOf).map Attr.doc))
        (some (.path [.seg "i32" .noArgs])) d') ∧
      d' = some (if analyze_return_type (some (.path [.seg "i32" .noArgs]))
        then Block.mk ["42"] else emptyBlock) ∧
      (d' = some emptyBlock ↔
        analyze_return_type (some (.path [.seg "i32" .noArgs])) = false) :=
  trait_default_method_rule [] _ 0 [Attr.doc " old docs"]
    (some (.path [.seg "i32" .noArgs])) (.mk ["42"]) rfl rfl (by decide)

/-- **C7 (code bug).** The transformer of `transformer.rs` accepts no
body-stripping flag at all (its callers pass one, but the constructor has
a single `no_comments` parameter): with the only flag it does accept left
inactive, a free function's non-empty body is still replaced by the empty
block. -/
theorem free_function_body_cleared_without_flag :
    transformFile false ⟨[], [.fnDecl []
        (some (.path [.seg "i32" .noArgs])) (.mk ["a + b"])]⟩ =
      .ok ⟨[], [.fnDecl [] (some (.path [.seg "i32" .noArgs])) emptyBlock]⟩ ∧
    Block.mk ["a + b"] ≠ emptyBlock := ⟨rfl, by decide⟩

/-- **C8 counterexample.** With `strip_docs` active, an enumeration's
variant documentation survives the pass: the enum arm processes only the
container's attributes and returns the variants unchanged. -/
theorem struct_enum_docs_counterexample :
    transformItem true (.enumDecl [] [⟨[Attr.doc " variant docs"]⟩]) =
      .ok (.enumDecl [] [⟨[Attr.doc " variant docs"]⟩]) ∧
    ([⟨[Attr.doc " variant docs"]⟩] : List Variant).all
      (fun v => v.attrs.all (fun x => !pathIsDoc x)) = false := by
  exact ⟨rfl, rfl⟩

/-- **C8 (amended).** With `strip_docs` active the pass removes every
documentation marker from a structure and from each of its fields, and
from an enumeration's own attribute list, retaining the container, the
fields, and the variants; enum *variants* are returned unchanged, их
documentation included. -/
theorem struct_enum_docs_rule (a : List Attr) (fs : List Field)
    (a2 : List Attr) (vs : List Variant)
    (h1 : has_test_attribute a = false) (h2 : has_test_attribute a2 = false) :
    transformItem true (.structDecl a fs) =
      .ok (.structDecl (process_attributes true a)
        (fs.map (fun f => ⟨process_attributes true f.attrs⟩))) ∧
    (process_attributes true a).all (fun x => !pathIsDoc x) = true ∧
    (fs.map (fun f => (⟨process_attributes true f.attrs⟩ : Field))).all
      (fun f => f.attrs.all (fun x => !pathIsDoc x)) = true ∧
    transformItem true (.enumDecl a2 vs) =
      .ok (.enumDecl (process_attributes true a2) vs) ∧
    (process_attributes true a2).all (fun x => !pathIsDoc x) = true := by
  refine ⟨transformItem_structDecl true a fs h1, all_nondoc_process_true a, ?_,
    transformItem_enumDecl true a2 vs h2, all_nondoc_process_true a2⟩
  rw [List.all_map, List.all_eq_true]
  intro f _
  exact all_nondoc_process_true f.attrs

/-- **C8 witness.** A structure with a documented field and an enum with an
undocumented variant. -/
theorem struct_enum_docs_rule_witness :
    transformItem true (.structDecl [Attr.doc " s"] [⟨[Attr.doc " f"]⟩]) =
      .ok (.structDecl (process_attributes true [Attr.doc " s"])
        (([⟨[Attr.doc " f"]⟩] : List Field).map
          (fun f => ⟨process_attributes true f.attrs⟩))) ∧
    (process_attributes true [Attr.doc " s"]).all (fun x => !pathIsDoc x) = true ∧
    (([⟨[Attr.doc " f"]⟩] : List Field).map
      (fun f => (⟨process_attributes true f.attrs⟩ : Field))).all
        (fun f => f.attrs.all (fun x => !pathIsDoc x)) = true ∧
    transformItem true (.enumDecl [Attr.derive] [⟨[]⟩]) =
      .ok (.enumDecl (process_attributes true [Attr.derive]) [⟨[]⟩]) ∧
    (process_attributes true [Attr.derive]).all (fun x => !pathIsDoc x) = true :=
  struct_enum_docs_rule [Attr.doc " s"] [⟨[Attr.doc " f"]⟩] [Attr.derive] [⟨[]⟩]
    rfl rfl

/-- **C5.** Every declaration carrying a test marker, or a
conditional-compilation marker whose predicate text contains `"test"`, is
absent from the tree after one (successful) pass — at top level and inside
module bodies at any depth. -/
theorem test_only_declarations_absent (nc : Bool) (f f' : SrcFile)
    (h : transformFile nc f = .ok f') : noTestDeepList f'.items = true := by
  obtain ⟨l, hk, hf⟩ := transformFile_inv nc f f' h
  subst hf
  refine transformTopItems_noTestDeep nc _ ?_ l hk
  intro j hj
  rw [List.mem_filter] at hj
  have h2 := hj.2
  rw [Bool.not_eq_eq_eq_not, Bool.not_true, should_remove_eq_has_test] at h2
  exact h2

/-- **C5 witness.** A file with a `#[test]` function at top level and a
`#[cfg(test)]` function inside a module. -/
theorem test_only_declarations_absent_witness :
    noTestDeepList (SrcFile.mk []
      [.modDecl [] (some [.fnDecl [] none emptyBlock])]).items = true :=
  test_only_declarations_absent false
    ⟨[], [.fnDecl [Attr.test] none (.mk ["x"]),
          .modDecl [] (some [.fnDecl [Attr.cfg "test"] none (.mk ["y"]),
                             .fnDecl [] none (.mk ["z"])])]⟩
    _ rfl

/-- **C4.** After one (successful) pass, every free function — top-level or
nested in module bodies at any depth — has the empty block as its body,
regardless of its return type and of the policy flag: the string/JSON
exception never applies to free functions. -/
theorem free_function_bodies_empty (nc : Bool) (f f' : SrcFile)
    (h : transformFile nc f = .ok f') : fnBodiesEmptyList f'.items = true := by
  obtain ⟨l, hk, hf⟩ := transformFile_inv nc f f' h
  subst hf
  refine transformTopItems_fnBodiesEmpty nc _ ?_ l hk
  intro j hj
  rw [List.mem_filter] at hj
  have h2 := hj.2
  rw [Bool.not_eq_eq_eq_not, Bool.not_true, should_remove_eq_has_test] at h2
  exact h2

/-- **C4 witness.** A string-returning free function and a nested one both
lose their bodies. -/
theorem free_function_bodies_empty_witness :
    fnBodiesEmptyList (SrcFile.mk []
      [.fnDecl [] (some (.path [.seg "String" .noArgs])) emptyBlock,
       .modDecl [] (some [.fnDecl [] none emptyBlock])]).items = true :=
  free_function_bodies_empty false
    ⟨[], [.fnDecl [] (some (.path [.seg "String" .noArgs])) (.mk ["text()"]),
          .modDecl [] (some [.fnDecl [] none (.mk ["side()"])])]⟩
    _ rfl

/-- **C9.** When a declaration variant without implemented metadata access
reaches the pass's metadata-access step (the per-item
`process_attributes(get_attrs_mut(..))` of a traversed module body), the
pass aborts with the `"Unexpected item type"` panic; and this abort is the
only failure mode of the transform: every error the pass can produce
carries exactly that message. -/
theorem metadata_access_abort (nc : Bool) :
    (∀ a js, has_test_attribute a = false →
      transformItem nc (.modDecl a (some (Item.otherItem :: js))) =
        .error "Unexpected item type") ∧
    (∀ f e, transformFile nc f = .error e → e = "Unexpected item type") := by
  constructor
  · intro a js hT
    rw [transformItem, if_neg (by simp [hT]), if_neg (by simp [hT])]
    rw [transformModItems]
    simp [get_attrs, has_test_attribute, preVisitItem, Except.bind, Bind.bind]
  · intro f e h
    simp only [transformFile] at h
    cases hk : transformTopItems nc
        (f.items.filter (fun i => !should_remove_item i)) with
    | error e2 =>
        rw [hk] at h
        simp only [Bind.bind, Except.bind, Except.error.injEq] at h
        subst h
        exact transformTopItems_error_message nc _ e2 hk
    | ok l =>
        rw [hk] at h
        simp only [Bind.bind, Except.bind] at h
        cases h

/-- **C9 witness.** A module containing an unrecognized item variant makes
the pass abort, and the file-level pass reports exactly the panic text. -/
theorem metadata_access_abort_witness :
    transformItem false (.modDecl [] (some [Item.otherItem])) =
      .error "Unexpected item type" ∧
    "Unexpected item type" = "Unexpected item type" :=
  ⟨(metadata_access_abort false).1 [] [] rfl,
   (metadata_access_abort false).2
     ⟨[], [.modDecl [] (some [Item.otherItem])]⟩ _ rfl⟩

/-- **C10.** For every declaration retained by a (successful) pass, the
non-documentation markers — derive, conditional-compilation, and opaque
markers — are unchanged, in content and order: the preorder profile of
non-doc attribute lists over the retained declarations and their
fields/variants/members is identical before and after. -/
theorem non_doc_markers_preserved (nc : Bool) (f f' : SrcFile)
    (h : transformFile nc f = .ok f') :
    nd f'.attrs = nd f.attrs ∧
    ndProfileList f'.items = ndProfileList f.items := by
  obtain ⟨l, hk, hf⟩ := transformFile_inv nc f f' h
  subst hf
  constructor
  · cases nc <;> simp [nd_filter_nondoc, nd]
  · rw [transformTopItems_ndProfile nc _ ?_ l hk, ndProfileList_filter]
    intro j hj
    rw [List.mem_filter] at hj
    have h2 := hj.2
    rw [Bool.not_eq_eq_eq_not, Bool.not_true, should_remove_eq_has_test] at h2
    exact h2

/-- **C10 witness.** A derive marker on a struct and on an impl block, and
an opaque marker on the file, a field, and a method, all survive a
documentation-stripping pass unchanged. -/
theorem non_doc_markers_preserved_witness :
    nd (SrcFile.mk [Attr.otherAttr]
      [.structDecl [Attr.derive] [⟨[Attr.otherAttr]⟩],
       .implDecl [Attr.derive] none
         [.fnII [Attr.otherAttr] none emptyBlock]]).attrs =
      nd (SrcFile.mk [Attr.otherAttr]
        [.structDecl [Attr.derive, Attr.doc " d"] [⟨[Attr.otherAttr]⟩],
         .implDecl [Attr.derive] none
           [.fnII [Attr.otherAttr, Attr.doc " m"] none (.mk ["b"])]]).attrs ∧
    ndProfileList (SrcFile.mk [Attr.otherAttr]
      [.structDecl [Attr.derive] [⟨[Attr.otherAttr]⟩],
       .implDecl [Attr.derive] none
         [.fnII [Attr.otherAttr] none emptyBlock]]).items =
      ndProfileList (SrcFile.mk [Attr.otherAttr]
        [.structDecl [Attr.derive, Attr.doc " d"] [⟨[Attr.otherAttr]⟩],
         .implDecl [Attr.derive] none
           [.fnII [Attr.otherAttr, Attr.doc " m"] none (.mk ["b"])]]).items :=
  non_doc_markers_preserved true
    ⟨[Attr.otherAttr],
      [.structDecl [Attr.derive, Attr.doc " d"] [⟨[Attr.otherAttr]⟩],
       .implDecl [Attr.derive] none
         [.fnII [Attr.otherAttr, Attr.doc " m"] none (.mk ["b"])]]⟩
    _ rfl

/-- **C6 counterexample.** With documentation preserved, re-running the
pass on a trait with one required method duplicates the synthetic status
marker: the doc list after one pass is the single marker, after two passes
it is marker, blank line, marker. -/
theorem pass_not_idempotent_counterexample :
    ((transformFile false ⟨[], [.traitDecl [] [.fnTI [] none none]]⟩).bind
        (transformFile false)) ≠
      transformFile false ⟨[], [.traitDecl [] [.fnTI [] none none]]⟩ := by
  intro h
  exact absurd (congrArg firstTraitMethodDocTexts h) (by decide)

/-- **C6 (amended).** With documentation stripping active the pass is
idempotent: applying it twice yields the same result (tree or abort) as
applying it once.  With documentation preserved it is not: each pass
prepends a fresh trait-method status marker (see the counterexample). -/
theorem pass_idempotent_strip_docs (f : SrcFile) :
    (transformFile true f).bind (transformFile true) = transformFile true f := by
  cases hf : transformFile true f with
  | error e => simp [Bind.bind, Except.bind]
  | ok f' =>
      simp only [Bind.bind, Except.bind]
      obtain ⟨l, hk, hdef⟩ := transformFile_inv true f f' hf
      subst hdef
      have hmem : ∀ j ∈ f.items.filter (fun i => !should_remove_item i),
          has_test_attribute (get_attrs j) = false := by
        intro j hj
        rw [List.mem_filter] at hj
        have h2 := hj.2
        rw [Bool.not_eq_eq_eq_not, Bool.not_true, should_remove_eq_has_test] at h2
        exact h2
      have hl' := transformTopItems_not_test true _ hmem l hk
      unfold transformFile
      simp only [if_pos rfl]
      rw [show List.filter (fun i => !should_remove_item i) l = l from
        List.filter_eq_self.mpr (fun j hj => by
          simp [should_remove_eq_has_test, hl' j hj])]
      rw [transformTopItems_true_idem _ hmem l hk]
      simp [Bind.bind, Except.bind, filter_nondoc_idem]

end CodeContext
